import Mathlib

/-!
Shallow embedding of the tile-streaming core of the DSV pathology viewer:
the byte-budgeted LRU tile cache (`TileCache.hpp`,
`WSITileGraphicsItemCache.cpp`), the tile manager with its per-tile coverage
map and viewport scheduler (`TileManager.cpp`), the job queue
(`IOThread.cpp`) and the worker job execution (`IOWorker.cpp`).

Conventions of the embedding:
* machine integers become `Nat`/`Int` (all quantities involved stay far below
  their C++ widths on every input considered here);
* `float`/`double` coordinate arithmetic is modelled exactly over `ℚ`;
* heap pointers become abstract `Nat` identifiers;
* `std::map` becomes an association list (`alistLookup`/`alistSet`/
  `alistErase`); the ordering of `std::map` iteration is irrelevant to every
  property treated here;
* an execution step whose C++ original is undefined behaviour (dereferencing
  `_cache.end()`, `front()`/`pop_front()` on an empty `std::list`,
  dereferencing an empty `shared_ptr`) is modelled as the result `none`.
-/

namespace DSV

/-! ## Association-list primitives (model of `std::map`) -/

/-- First value bound to `k`, as `std::map::find`. -/
def alistLookup {α β : Type} [DecidableEq α] (k : α) : List (α × β) → Option β
  | [] => none
  | (k₁, v) :: rest => if k₁ = k then some v else alistLookup k rest

/-- Remove the binding of `k` (the first one), as `std::map::erase`. -/
def alistErase {α β : Type} [DecidableEq α] (k : α) : List (α × β) → List (α × β)
  | [] => []
  | (k₁, v) :: rest => if k₁ = k then rest else (k₁, v) :: alistErase k rest

/-- Insert-or-assign, as `std::map::operator[]` followed by assignment. -/
def alistSet {α β : Type} [DecidableEq α] (k : α) (v : β) : List (α × β) → List (α × β)
  | [] => [(k, v)]
  | (k₁, v₁) :: rest => if k₁ = k then (k, v) :: rest else (k₁, v₁) :: alistSet k v rest

/-- Remove the first occurrence of `k` from a plain list (one node of
`std::list`, as `splice` detaches it). -/
def listRemove {α : Type} [DecidableEq α] (k : α) : List α → List α
  | [] => []
  | k₁ :: rest => if k₁ = k then rest else k₁ :: listRemove k rest

/-! ## The LRU tile cache

`WSITileGraphicsItemCache` (which instantiates `TileCache` with
`keyType = std::string`): `_cache` maps a key to
`((item pointer, byte size), LRU iterator)`; the stored iterator is
`_LRU.end()` exactly for entries inserted with `topLevel = true`, recorded
here as the flag `pinned`.  `_LRU` is the eviction-candidate list, front =
least recently used.  The key type is kept abstract (the source fixes it to
`std::string`). -/

structure CacheEntry where
  item : Nat
  size : Nat
  pinned : Bool
  deriving DecidableEq, Repr

structure CacheState (K : Type) where
  cache : List (K × CacheEntry)
  lru : List K
  maxByteSize : Nat
  currentByteSize : Nat
  deriving DecidableEq, Repr

namespace WSITileGraphicsItemCache

variable {K : Type} [DecidableEq K]

/-- The empty cache with budget `max` (`_cacheCurrentByteSize = 0`). -/
def init (max : Nat) : CacheState K :=
  { cache := [], lru := [], maxByteSize := max, currentByteSize := 0 }

/-- `WSITileGraphicsItemCache::evict` (`WSITileGraphicsItemCache.cpp:29`):
takes `_LRU.front()`, looks it up in `_cache`, subtracts its size, erases it
from `_cache`, pops `_LRU`, and emits `itemEvicted` with the removed item
(returned here).  `_LRU.front()` on an empty list, and dereferencing a failed
`_cache.find`, are undefined behaviour: result `none`. -/
def evict (s : CacheState K) : Option (CacheState K × Nat) :=
  match s.lru with
  | [] => none
  | k :: rest =>
    match alistLookup k s.cache with
    | none => none
    | some e =>
      some ({ cache := alistErase k s.cache
              lru := rest
              maxByteSize := s.maxByteSize
              currentByteSize := s.currentByteSize - e.size }, e.item)

/-- The `while (_cacheCurrentByteSize + size > _cacheMaxByteSize &&
_cacheCurrentByteSize != 0) evict();` loop of `set`
(`WSITileGraphicsItemCache.cpp:110`), with explicit fuel to make the
recursion structural.  Each successful `evict` pops one element of `_LRU`,
so fuel `s.lru.length + 1` (used by `evictLoop` below) can never be
exhausted before the loop either terminates or hits the undefined
`evict` on an empty `_LRU`. -/
def evictLoopFuel (size : Nat) : Nat → CacheState K → Option (CacheState K)
  | 0, _ => none
  | fuel + 1, s =>
    if s.currentByteSize + size > s.maxByteSize ∧ s.currentByteSize ≠ 0 then
      match evict s with
      | none => none
      | some p => evictLoopFuel size fuel p.1
    else some s

/-- The eviction loop of `set`, run with sufficient fuel. -/
def evictLoop (s : CacheState K) (size : Nat) : Option (CacheState K) :=
  evictLoopFuel size (s.lru.length + 1) s

/-- `WSITileGraphicsItemCache::set` (`WSITileGraphicsItemCache.cpp:103`):
duplicate key or oversized item fail with return value 1; otherwise the
eviction loop runs, the entry is stored (appended to `_LRU` unless
`topLevel`, in which case the stored iterator is `_LRU.end()`, i.e.
`pinned`), and `_cacheCurrentByteSize` grows by `size`. -/
def set (s : CacheState K) (k : K) (v : Nat) (size : Nat) (topLevel : Bool) :
    Option (CacheState K × Nat) :=
  if (alistLookup k s.cache).isSome then some (s, 1)
  else if size > s.maxByteSize then some (s, 1)
  else
    match evictLoop s size with
    | none => none
    | some s₁ =>
      if topLevel then
        some ({ s₁ with
                cache := alistSet k ⟨v, size, true⟩ s₁.cache
                currentByteSize := s₁.currentByteSize + size }, 0)
      else
        some ({ s₁ with
                cache := alistSet k ⟨v, size, false⟩ s₁.cache
                lru := s₁.lru ++ [k]
                currentByteSize := s₁.currentByteSize + size }, 0)

/-- `WSITileGraphicsItemCache::get` (`WSITileGraphicsItemCache.cpp:58`): a
miss sets the out parameter to `NULL` and touches nothing; a hit splices the
key to the back of `_LRU` unless the stored iterator is `_LRU.end()`
(a pinned entry), and returns the item and its size. -/
def get (s : CacheState K) (k : K) : Option (Nat × Nat) × CacheState K :=
  match alistLookup k s.cache with
  | none => (none, s)
  | some e =>
    if e.pinned then (some (e.item, e.size), s)
    else (some (e.item, e.size), { s with lru := listRemove k s.lru ++ [k] })

/-- `WSITileGraphicsItemCache::clear` (`WSITileGraphicsItemCache.cpp:45`). -/
def clear (s : CacheState K) : CacheState K :=
  { cache := [], lru := [], maxByteSize := s.maxByteSize, currentByteSize := 0 }

/-- States reachable from an empty cache by the `set`/`evict` calls the
claims quantify over.  A call whose C++ original runs into undefined
behaviour produces no successor state. -/
inductive Reachable : CacheState K → Prop
  | init (max : Nat) : Reachable (init max)
  | step_set {s s₁ : CacheState K} {k : K} {v size : Nat} {topLevel : Bool} {r : Nat} :
      Reachable s → set s k v size topLevel = some (s₁, r) → Reachable s₁
  | step_evict {s s₁ : CacheState K} {it : Nat} :
      Reachable s → evict s = some (s₁, it) → Reachable s₁

end WSITileGraphicsItemCache

/-- Total byte size of all cache entries. -/
def sumSizes {K : Type} : List (K × CacheEntry) → Nat
  | [] => 0
  | (_, e) :: rest => e.size + sumSizes rest

/-- Total byte size of the unpinned entries (those inserted with
`topLevel = false`). -/
def sumUnpinnedSizes {K : Type} : List (K × CacheEntry) → Nat
  | [] => 0
  | (_, e) :: rest => (if e.pinned then 0 else e.size) + sumUnpinnedSizes rest

/-- Internal consistency of a cache state, established for every reachable
state: `_cacheCurrentByteSize` is the sum of the stored sizes, it respects
the budget, every `_LRU` member is an unpinned `_cache` entry, and `_LRU`
has no duplicates. -/
def CacheInv {K : Type} [DecidableEq K] (s : CacheState K) : Prop :=
  s.currentByteSize = sumSizes s.cache ∧
  s.currentByteSize ≤ s.maxByteSize ∧
  (∀ k ∈ s.lru, ∃ e, alistLookup k s.cache = some e ∧ e.pinned = false) ∧
  s.lru.Nodup

/-- A cache holding one pinned entry of 6 bytes under a 10-byte budget:
`_LRU` is empty while `_cacheCurrentByteSize = 6`.  Reachable from the empty
cache by one `set` with `topLevel = true`. -/
def pinnedOnlyState : CacheState String :=
  { cache := [("overview", ⟨1, 6, true⟩)], lru := [], maxByteSize := 10,
    currentByteSize := 6 }

/-! ## TileManager: coverage map and coordinate math

`_coverage` is `std::map<unsigned int, std::map<int, std::map<int, unsigned
char>>>`, flattened per level to an association list keyed by `(x, y)`.
A level absent from the outer map behaves as the empty inner map
(`operator[]` default-constructs it), so the outer map is a total function
from level to coverage list.  `operator[]` reads insert value-0 entries into
`_coverage`; for queries with non-negative coordinates a stored 0 and an
absent entry are indistinguishable, and only such queries occur in the
operations modelled here, so those insertions are not modelled. -/

/-- Coverage of one level: tile (x, y) to coverage value
(0 = Uncovered, 1 = Pending, 2 = Covered). -/
abbrev CoverageLevel := List ((Int × Int) × Nat)

/-- The full `_coverage` member, level by level. -/
abbrev CoverageMap := Nat → CoverageLevel

/-- The value `_coverage[level][x][y]` reads (0 when absent). -/
def covValue (cov : CoverageMap) (level : Nat) (x y : Int) : Nat :=
  (alistLookup (x, y) (cov level)).getD 0

namespace TileManager

/-- `TileManager::providesCoverage` (`TileManager.cpp:327`): 0 when the
level map is empty; for a negative coordinate, 2 exactly when every stored
entry of the level is 2; otherwise the stored value (0 when absent). -/
def providesCoverage (cov : CoverageMap) (level : Nat) (x y : Int) : Nat :=
  if cov level = [] then 0
  else if x < 0 ∨ y < 0 then
    if (cov level).all (fun e => e.2 = 2) then 2 else 0
  else covValue cov level x y

/-- `TileManager::setCoverage` (`TileManager.cpp:384`), restricted to the
`_coverage` member; the `_coverageMaps` `QPainterPath` update it also
performs is display-only state that no operation modelled here reads. -/
def setCoverage (cov : CoverageMap) (level : Nat) (x y : Int) (covers : Nat) :
    CoverageMap :=
  fun l => if l = level then alistSet (x, y) covers (cov l) else cov l

/-- The immutable per-image table and scheduler state of a `TileManager`:
`_tileSize`, `_lastRenderLevel`, `_levelDownsamples` (a `float` vector,
modelled over `ℚ`), `_levelDimensions` (each level's `dims[0], dims[1]`),
`_coverage`, and the no-op guard `_lastFOV`/`_lastLevel`.  `_lastFOV` is the
`QRect` spanned by the top-left and bottom-right tile, stored as its two
corners; the default `QRect()` has corners `(0, 0)` and `(-1, -1)`. -/
structure State where
  tileSize : Nat
  lastRenderLevel : Nat
  levelDownsamples : List ℚ
  levelDimensions : List (Nat × Nat)
  coverage : CoverageMap
  lastFOV : (Int × Int) × (Int × Int)
  lastLevel : Nat

/-- `TileManager::pixelCoordinatesToTileCoordinates` (`TileManager.cpp:83`):
`floor((coordinate / levelDownsample) / tileSize)` per axis for a level
inside the table, the default `QPoint()` = `(0, 0)` otherwise. -/
def pixelCoordinatesToTileCoordinates (s : State) (p : ℚ × ℚ) (level : Nat) :
    Int × Int :=
  if level < s.levelDownsamples.length then
    (⌊p.1 / s.levelDownsamples.getD level 0 / (s.tileSize : ℚ)⌋,
     ⌊p.2 / s.levelDownsamples.getD level 0 / (s.tileSize : ℚ)⌋)
  else (0, 0)

/-- `TileManager::tileCoordinatesToPixelCoordinates` (`TileManager.cpp:99`):
`coordinate * levelDownsample * tileSize` per axis for a level inside the
table, `(0, 0)` otherwise. -/
def tileCoordinatesToPixelCoordinates (s : State) (t : Int × Int) (level : Nat) :
    ℚ × ℚ :=
  if level < s.levelDownsamples.length then
    ((t.1 : ℚ) * s.levelDownsamples.getD level 0 * (s.tileSize : ℚ),
     (t.2 : ℚ) * s.levelDownsamples.getD level 0 * (s.tileSize : ℚ))
  else (0, 0)

/-- `TileManager::getLevelTiles` (`TileManager.cpp:114`):
`ceil(dims / (float)tileSize)` per axis for a level inside the table,
`(0, 0)` otherwise. -/
def getLevelTiles (s : State) (level : Nat) : Int × Int :=
  if level < s.levelDimensions.length then
    (⌈((s.levelDimensions.getD level (0, 0)).1 : ℚ) / (s.tileSize : ℚ)⌉,
     ⌈((s.levelDimensions.getD level (0, 0)).2 : ℚ) / (s.tileSize : ℚ)⌉)
  else (0, 0)

/-- The downsample ratio between a level and the next finer one, as
`isCovered` computes it (`TileManager.cpp:362`): the `float` quotient
`_levelDownsamples[level] / _levelDownsamples[level - 1]` converted to
`unsigned int` (truncation). -/
def downsampleRatio (s : State) (level : Nat) : Nat :=
  ⌊s.levelDownsamples.getD level 0 / s.levelDownsamples.getD (level - 1) 0⌋.toNat

/-- `TileManager::isCovered` (`TileManager.cpp:355`): `false` for level 0;
for a positive level with a negative coordinate, whether the whole level
provides coverage; otherwise the conjunction, over the
`downsampleRatio × downsampleRatio` block of finer tiles, of
`providesCoverage(level - 1, ·, ·) == 2`. -/
def isCovered (s : State) (level : Nat) (x y : Int) : Bool :=
  if level > 0 then
    if x < 0 ∨ y < 0 then
      providesCoverage s.coverage level (-1) (-1) == 2
    else
      (List.range (downsampleRatio s level)).all fun xi =>
        (List.range (downsampleRatio s level)).all fun yi =>
          providesCoverage s.coverage (level - 1)
            ((downsampleRatio s level : Int) * x + (xi : Int))
            ((downsampleRatio s level : Int) * y + (yi : Int)) == 2
  else false

end TileManager

/-! ## Jobs and the job queue -/

/-- A queued job (`IOThread.h`): `IOThread::addJob` builds an `IOJob` when no
foreground tile is passed and a `RenderJob` otherwise; both carry
`(tileSize, imgPosX, imgPosY, level)`, where `imgPosX`/`imgPosY` are tile
indices.  The foreground-tile payload of a `RenderJob` plays no part in the
operations modelled here. -/
inductive ThreadJob where
  | ioJob (tileSize : Nat) (imgPosX imgPosY : Int) (level : Nat)
  | renderJob (tileSize : Nat) (imgPosX imgPosY : Int) (level : Nat)
  deriving DecidableEq, Repr

/-- The tile indices of a job. -/
def ThreadJob.posX : ThreadJob → Int
  | .ioJob _ x _ _ => x
  | .renderJob _ x _ _ => x

/-- The tile indices of a job, y axis. -/
def ThreadJob.posY : ThreadJob → Int
  | .ioJob _ _ y _ => y
  | .renderJob _ _ y _ => y

/-- The level of a job. -/
def ThreadJob.level : ThreadJob → Nat
  | .ioJob _ _ _ l => l
  | .renderJob _ _ _ l => l

namespace TileManager

/-- The integers from `a` to `b` inclusive, in order: the iteration space of
`for (int x = a; x <= b; ++x)`. -/
def intRange (a b : Int) : List Int :=
  (List.range (b + 1 - a).toNat).map (fun n => a + Int.ofNat n)

/-- The inner loop of `loadTilesForFieldOfView` (`TileManager.cpp:160`): for
each y in range, if `0 ≤ y ≤ nrTiles.y` and the tile provides coverage `< 1`,
set its coverage to 1 (Pending) and enqueue an `IOJob`. -/
def loadTilesY (tileSize level : Nat) (nrY x : Int) (ys : List Int)
    (cov : CoverageMap) : CoverageMap × List ThreadJob :=
  match ys with
  | [] => (cov, [])
  | y :: rest =>
    if 0 ≤ y ∧ y ≤ nrY then
      if providesCoverage cov level x y < 1 then
        let step := loadTilesY tileSize level nrY x rest (setCoverage cov level x y 1)
        (step.1, .ioJob tileSize x y level :: step.2)
      else loadTilesY tileSize level nrY x rest cov
    else loadTilesY tileSize level nrY x rest cov

/-- The outer loop of `loadTilesForFieldOfView` (`TileManager.cpp:158`). -/
def loadTilesX (tileSize level : Nat) (nrX nrY : Int) (xs ys : List Int)
    (cov : CoverageMap) : CoverageMap × List ThreadJob :=
  match xs with
  | [] => (cov, [])
  | x :: rest =>
    if 0 ≤ x ∧ x ≤ nrX then
      let inner := loadTilesY tileSize level nrY x ys cov
      let step := loadTilesX tileSize level nrX nrY rest ys inner.1
      (step.1, inner.2 ++ step.2)
    else loadTilesX tileSize level nrX nrY rest ys cov

/-- `TileManager::loadTilesForFieldOfView` (`TileManager.cpp:145`): returns
early for a level beyond `_lastRenderLevel`; otherwise converts the field of
view to a tile rectangle, and unless that rectangle and level equal
`_lastFOV`/`_lastLevel`, records them and runs the tile loops.  The result
is the new state together with the list of jobs handed to
`IOThread::addJob`, in call order.  The field of view is passed as its
top-left and bottom-right corners (for a `QRectF`, `bottomRight()` is
`(x + width, y + height)`).  The `if (_ioThread)` guard is modelled as
always taken: the viewer wires a non-null `IOThread` before any call. -/
def loadTilesForFieldOfView (s : State) (fovTL fovBR : ℚ × ℚ) (level : Nat) :
    State × List ThreadJob :=
  if level > s.lastRenderLevel then (s, [])
  else
    let topLeftTile := pixelCoordinatesToTileCoordinates s fovTL level
    let bottomRightTile := pixelCoordinatesToTileCoordinates s fovBR level
    let fovTile := (topLeftTile, bottomRightTile)
    let nrTiles := getLevelTiles s level
    if fovTile ≠ s.lastFOV ∨ level ≠ s.lastLevel then
      let run := loadTilesX s.tileSize level nrTiles.1 nrTiles.2
        (intRange topLeftTile.1 bottomRightTile.1)
        (intRange topLeftTile.2 bottomRightTile.2) s.coverage
      ({ s with lastLevel := level, lastFOV := fovTile, coverage := run.1 }, run.2)
    else (s, [])

end TileManager

/-! ## The worker and the manager callbacks -/

/-- The slice of `MultiResolutionImage` the worker touches: validity flag,
per-level `dims[0], dims[1]`, and samples per pixel. -/
structure MultiResolutionImage where
  isValid : Bool
  levelDimensions : List (Nat × Nat)
  samplesPerPixel : Nat

/-- `MultiResolutionImage::getLevelDownsample` (`MultiResolutionImage.cpp`):
`dims[0][0] / dims[level][0]` for a valid image and in-range level, `-1.0`
otherwise. -/
def MultiResolutionImage.getLevelDownsample (img : MultiResolutionImage)
    (level : Nat) : ℚ :=
  if img.isValid ∧ level < img.levelDimensions.length then
    ((img.levelDimensions.getD 0 (0, 0)).1 : ℚ) /
      ((img.levelDimensions.getD level (0, 0)).1 : ℚ)
  else -1

/-- What `IOWorker::executeIOJob` emits through `tileLoaded` on success:
`(backgroundTile, imgPosX, imgPosY, tileSize, tileSize² · samplesPerPixel,
level, foregroundTile, foregroundPixmap)`; the pixel payloads are abstracted
away. -/
structure TileLoadedMsg where
  imgPosX : Int
  imgPosY : Int
  tileSize : Nat
  byteSize : Nat
  level : Nat
  deriving DecidableEq, Repr

namespace IOWorker

/-- `IOWorker::executeIOJob` (`IOWorker.cpp:134`), with the pixel decoding
and foreground compositing abstracted away (they produce only the image
payloads dropped from `TileLoadedMsg`).  Line 135 resolves the weak
background-image reference; line 136 immediately calls
`local_bck_img->getLevelDownsample(job->_level)` on the resolved handle,
before the `if (local_bck_img)` test on line 158.  When the resolution
failed (`lock()` returned an empty handle, modelled as `none`) that call
dereferences a null pointer: result `none`.  With a live handle the
line-158 branch is taken and `tileLoaded` is emitted. -/
def executeIOJob (bck : Option MultiResolutionImage)
    (tileSize : Nat) (imgPosX imgPosY : Int) (level : Nat) :
    Option (TileLoadedMsg × Bool) :=
  match bck with
  | none => none
  | some img =>
    let _levelDownsample := img.getLevelDownsample level
    some ({ imgPosX := imgPosX, imgPosY := imgPosY, tileSize := tileSize,
            byteSize := tileSize * tileSize * img.samplesPerPixel,
            level := level }, true)

end IOWorker

/-- The cache key `onTileLoaded`/`onForegroundTileRendered` build with a
`stringstream`: `tileX << "_" << tileY << "_" << tileLevel`. -/
def tileKey (x y : Int) (level : Nat) : String :=
  toString x ++ "_" ++ toString y ++ "_" ++ toString level

/-- The state `TileManager`'s notification slots mutate: the manager itself
and the cache it owns (`_scene` is display-only and omitted; both `_scene`
and `_cache` are non-null for a manager wired up by the viewer). -/
structure ManagerState where
  tm : TileManager.State
  cache : CacheState String

namespace TileManager

/-- `TileManager::onTileLoaded` (`TileManager.cpp:240`).  A null tile resets
the coverage of the key to 0.  A loaded tile (its new `WSITileGraphicsItem`
abstracted to the identifier `item`) sets coverage to 2, is added to the
scene (display-only, omitted), and is inserted into the cache with
`topLevel = (tileLevel == _lastRenderLevel)`; a cache insertion that runs
into the undefined eviction loop yields `none`. -/
def onTileLoaded (m : ManagerState) (tile : Option Nat) (tileX tileY : Int)
    (tileByteSize tileLevel : Nat) : Option ManagerState :=
  match tile with
  | none => some { m with tm := { m.tm with
      coverage := setCoverage m.tm.coverage tileLevel tileX tileY 0 } }
  | some item =>
    let key := tileKey tileX tileY tileLevel
    let tm₁ := { m.tm with
      coverage := setCoverage m.tm.coverage tileLevel tileX tileY 2 }
    match WSITileGraphicsItemCache.set m.cache key item tileByteSize
        (decide (tileLevel = m.tm.lastRenderLevel)) with
    | none => none
    | some c => some { tm := tm₁, cache := c.1 }

/-- `TileManager::onForegroundTileRendered` (`TileManager.cpp:206`): looks
the key up in the cache (a hit splices it in the LRU); on a hit the coverage
becomes 2 (the pixmap, when non-null, is attached to the item — display
state, omitted), on a miss it becomes 0. -/
def onForegroundTileRendered (m : ManagerState) (tile : Option Nat)
    (tileX tileY : Int) (tileLevel : Nat) : ManagerState :=
  let key := tileKey tileX tileY tileLevel
  let r := WSITileGraphicsItemCache.get m.cache key
  match r.1 with
  | some _ =>
    { tm := { m.tm with coverage := setCoverage m.tm.coverage tileLevel tileX tileY 2 }
      cache := r.2 }
  | none =>
    { tm := { m.tm with coverage := setCoverage m.tm.coverage tileLevel tileX tileY 0 }
      cache := r.2 }

end TileManager

/-! ## The job queue -/

/-- The queue state of `IOThread`: the worker vector (only its size matters
to the operations modelled here) and `_jobList`, front first. -/
structure IOThreadState where
  workers : Nat
  jobList : List ThreadJob

namespace IOThread

/-- `IOThread::addJob` (`IOThread.cpp:102`): builds an `IOJob` (no
foreground tile) or a `RenderJob` and pushes it to the front of
`_jobList`. -/
def addJob (t : IOThreadState) (tileSize : Nat) (imgPosX imgPosY : Int)
    (level : Nat) (foregroundTile : Bool) : IOThreadState :=
  let job : ThreadJob :=
    if foregroundTile then .renderJob tileSize imgPosX imgPosY level
    else .ioJob tileSize imgPosX imgPosY level
  { t with jobList := job :: t.jobList }

/-- The loop body of `IOThread::clearJobs` (`IOThread.cpp:175`): for each
queued job, when at least one worker exists, an `IOJob` is announced through
`_workers[0]->tileLoaded(nullptr, x, y, tileSize, 0, level, …)` and a
`RenderJob` through `_workers[0]->foregroundTileRendered(nullptr, x, y,
level)`; those signals are connected to `TileManager::onTileLoaded` and
`TileManager::onForegroundTileRendered` (`PathologyViewer.cpp:387`).  The
jobs themselves are deleted. -/
def clearJobsList (workers : Nat) : List ThreadJob → ManagerState →
    Option ManagerState
  | [], m => some m
  | job :: rest, m =>
    if workers > 0 then
      match job with
      | .ioJob _ x y lvl =>
        (TileManager.onTileLoaded m none x y 0 lvl).bind (clearJobsList workers rest)
      | .renderJob _ x y lvl =>
        clearJobsList workers rest (TileManager.onForegroundTileRendered m none x y lvl)
    else clearJobsList workers rest m

/-- `IOThread::clearJobs` (`IOThread.cpp:172`): announce and delete every
queued job, then `_jobList.clear()`. -/
def clearJobs (t : IOThreadState) (m : ManagerState) :
    Option (IOThreadState × ManagerState) :=
  (clearJobsList t.workers t.jobList m).map ({ t with jobList := [] }, ·)

end IOThread

/-! ## Concrete states used to instantiate the theorems -/

/-- A cache after two unpinned insertions (4 and 5 bytes) under a 10-byte
budget. -/
def twoEntryState : CacheState String :=
  { cache := [("0_0_0", ⟨1, 4, false⟩), ("1_0_0", ⟨2, 5, false⟩)],
    lru := ["0_0_0", "1_0_0"], maxByteSize := 10, currentByteSize := 9 }

/-- A cache holding one pinned 8-byte entry under a 100-byte budget. -/
def pinnedGetState : CacheState String :=
  { cache := [("0_0_1", ⟨3, 8, true⟩)], lru := [], maxByteSize := 100,
    currentByteSize := 8 }

/-- A two-level manager whose level-0 tile (0, 0) is Covered (value 2). -/
def coveredTileState : TileManager.State :=
  { tileSize := 512, lastRenderLevel := 1, levelDownsamples := [1, 2],
    levelDimensions := [(1024, 1024), (512, 512)],
    coverage := fun l => if l = 0 then [((0, 0), 2)] else [],
    lastFOV := ((0, 0), (-1, -1)), lastLevel := 0 }

/-- A one-level 512×512 image with 512-pixel tiles: the tile grid is 1×1. -/
def edgeState : TileManager.State :=
  { tileSize := 512, lastRenderLevel := 0, levelDownsamples := [1],
    levelDimensions := [(512, 512)], coverage := fun _ => [],
    lastFOV := ((0, 0), (-1, -1)), lastLevel := 0 }

/-- A two-level image with 256-pixel tiles, level 1 downsampled 4×. -/
def imageState : TileManager.State :=
  { tileSize := 256, lastRenderLevel := 1, levelDownsamples := [1, 4],
    levelDimensions := [(4096, 4096), (1024, 1024)], coverage := fun _ => [],
    lastFOV := ((0, 0), (-1, -1)), lastLevel := 0 }

/-- A manager whose tile (0, 0, 0) is Pending (value 1) while the same key
sits in the cache. -/
def pendingRenderManager : ManagerState :=
  { tm := { tileSize := 512, lastRenderLevel := 1,
            levelDownsamples := [1, 2],
            levelDimensions := [(1024, 1024), (512, 512)],
            coverage := fun l => if l = 0 then [((0, 0), 1)] else [],
            lastFOV := ((0, 0), (-1, -1)), lastLevel := 0 },
    cache := { cache := [("0_0_0", ⟨5, 100, false⟩)], lru := ["0_0_0"],
               maxByteSize := 1000, currentByteSize := 100 } }

/-- A queue holding one `RenderJob` for tile (0, 0, 0), with one worker. -/
def pendingRenderQueue : IOThreadState :=
  { workers := 1, jobList := [.renderJob 512 0 0 0] }

/-- A one-level 100×100 image with 64-pixel tiles. -/
def tinyImageState : TileManager.State :=
  { tileSize := 64, lastRenderLevel := 0, levelDownsamples := [1],
    levelDimensions := [(100, 100)], coverage := fun _ => [],
    lastFOV := ((0, 0), (-1, -1)), lastLevel := 0 }

/-! ## Lemmas about the association-list primitives -/

section AlistLemmas

variable {α β : Type} [DecidableEq α]

theorem alistLookup_erase (k k₁ : α) (l : List (α × β)) (h : k₁ ≠ k) :
    alistLookup k₁ (alistErase k l) = alistLookup k₁ l := by
  induction l with
  | nil => rfl
  | cons kv rest ih =>
    obtain ⟨k₂, v⟩ := kv
    by_cases h₂ : k₂ = k
    · subst h₂
      simp [alistErase, alistLookup, Ne.symm h]
    · by_cases h₃ : k₂ = k₁
      · subst h₃
        simp [alistErase, alistLookup, h₂]
      · simp [alistErase, alistLookup, h₂, h₃, ih]

theorem alistLookup_erase_none (k k₁ : α) (l : List (α × β))
    (h : alistLookup k₁ l = none) : alistLookup k₁ (alistErase k l) = none := by
  induction l with
  | nil => rfl
  | cons kv rest ih =>
    obtain ⟨k₂, v⟩ := kv
    simp only [alistLookup] at h
    by_cases h₃ : k₂ = k₁
    · rw [if_pos h₃] at h
      exact absurd h (by simp)
    · rw [if_neg h₃] at h
      by_cases h₂ : k₂ = k
      · simp only [alistErase, if_pos h₂]
        exact h
      · simp only [alistErase, if_neg h₂, alistLookup, if_neg h₃]
        exact ih h

theorem alistLookup_set_self (k : α) (v : β) (l : List (α × β)) :
    alistLookup k (alistSet k v l) = some v := by
  induction l with
  | nil => simp [alistSet, alistLookup]
  | cons kv rest ih =>
    obtain ⟨k₂, w⟩ := kv
    by_cases h₂ : k₂ = k
    · simp [alistSet, h₂, alistLookup]
    · simp only [alistSet, if_neg h₂, alistLookup, if_neg h₂]
      exact ih

theorem alistLookup_set_ne (k k₁ : α) (v : β) (l : List (α × β)) (h : k₁ ≠ k) :
    alistLookup k₁ (alistSet k v l) = alistLookup k₁ l := by
  induction l with
  | nil => simp [alistSet, alistLookup, Ne.symm h]
  | cons kv rest ih =>
    obtain ⟨k₂, w⟩ := kv
    by_cases h₂ : k₂ = k
    · subst h₂
      simp [alistSet, alistLookup, Ne.symm h]
    · by_cases h₃ : k₂ = k₁
      · subst h₃
        simp [alistSet, alistLookup, h₂]
      · simp [alistSet, alistLookup, h₂, h₃, ih]

end AlistLemmas

section CacheLemmas

variable {K : Type} [DecidableEq K]

theorem sumUnpinned_le_sumSizes (l : List (K × CacheEntry)) :
    sumUnpinnedSizes l ≤ sumSizes l := by
  induction l with
  | nil => simp [sumUnpinnedSizes, sumSizes]
  | cons kv rest ih =>
    obtain ⟨k, e⟩ := kv
    simp only [sumUnpinnedSizes, sumSizes]
    have : (if e.pinned then 0 else e.size) ≤ e.size := by split <;> omega
    omega

theorem sumSizes_lookup (k : K) (e : CacheEntry) (l : List (K × CacheEntry))
    (h : alistLookup k l = some e) :
    sumSizes l = e.size + sumSizes (alistErase k l) := by
  induction l with
  | nil => simp [alistLookup] at h
  | cons kv rest ih =>
    obtain ⟨k₂, v⟩ := kv
    simp only [alistLookup] at h
    by_cases h₂ : k₂ = k
    · rw [if_pos h₂] at h
      obtain rfl : v = e := Option.some.inj h
      simp [alistErase, if_pos h₂, sumSizes]
    · rw [if_neg h₂] at h
      simp only [alistErase, if_neg h₂, sumSizes]
      rw [ih h]
      omega

theorem sumSizes_set_absent (k : K) (e : CacheEntry) (l : List (K × CacheEntry))
    (h : alistLookup k l = none) :
    sumSizes (alistSet k e l) = sumSizes l + e.size := by
  induction l with
  | nil => simp [alistSet, sumSizes]
  | cons kv rest ih =>
    obtain ⟨k₂, v⟩ := kv
    simp only [alistLookup] at h
    by_cases h₂ : k₂ = k
    · rw [if_pos h₂] at h
      exact absurd h (by simp)
    · rw [if_neg h₂] at h
      simp only [alistSet, if_neg h₂, sumSizes]
      rw [ih h]
      omega

theorem evict_eq_some {s : CacheState K} {p : CacheState K × Nat}
    (h : WSITileGraphicsItemCache.evict s = some p) :
    ∃ k rest e, s.lru = k :: rest ∧ alistLookup k s.cache = some e ∧
      p.1 = { cache := alistErase k s.cache, lru := rest,
              maxByteSize := s.maxByteSize,
              currentByteSize := s.currentByteSize - e.size } ∧
      p.2 = e.item := by
  obtain ⟨cache, lru, max, cur⟩ := s
  cases lru with
  | nil => exact absurd h (by simp [WSITileGraphicsItemCache.evict])
  | cons k rest =>
    rcases hE : alistLookup k cache with _ | e
    · rw [show WSITileGraphicsItemCache.evict ⟨cache, k :: rest, max, cur⟩
          = none by simp [WSITileGraphicsItemCache.evict, hE]] at h
      exact absurd h (by simp)
    · rw [show WSITileGraphicsItemCache.evict ⟨cache, k :: rest, max, cur⟩
          = some (⟨alistErase k cache, rest, max, cur - e.size⟩, e.item) by
            simp [WSITileGraphicsItemCache.evict, hE]] at h
      obtain rfl := Option.some.inj h
      exact ⟨k, rest, e, rfl, hE, rfl, rfl⟩

theorem evict_preserves (s : CacheState K) (hInv : CacheInv s)
    {p : CacheState K × Nat} (h : WSITileGraphicsItemCache.evict s = some p) :
    CacheInv p.1 ∧ p.1.maxByteSize = s.maxByteSize ∧
    p.1.lru.length + 1 = s.lru.length ∧
    (∀ k₁, alistLookup k₁ s.cache = none → alistLookup k₁ p.1.cache = none) ∧
    (∀ k₁ e₁, alistLookup k₁ s.cache = some e₁ → e₁.pinned = true →
      alistLookup k₁ p.1.cache = some e₁) ∧
    (∃ k e, s.lru.head? = some k ∧ alistLookup k s.cache = some e ∧
      e.pinned = false ∧ p.2 = e.item) := by
  obtain ⟨k, rest, e, hL, hE, hp1, hp2⟩ := evict_eq_some h
  obtain ⟨hsum, hle, hlru, hnd⟩ := hInv
  have hkmem : k ∈ s.lru := by rw [hL]; exact List.mem_cons_self _ _
  obtain ⟨e₁, hE₁, hpin₁f⟩ := hlru k hkmem
  have hee : e₁ = e := Option.some.inj (hE₁.symm.trans hE)
  have hpin₁ : e.pinned = false := hee ▸ hpin₁f
  have hnd₁ := hL ▸ hnd
  have hknotin : k ∉ rest := (List.nodup_cons.mp hnd₁).1
  have hndrest : rest.Nodup := (List.nodup_cons.mp hnd₁).2
  have hsplit : sumSizes s.cache = e.size + sumSizes (alistErase k s.cache) :=
    sumSizes_lookup k e _ hE
  refine ⟨⟨?_, ?_, ?_, ?_⟩, ?_, ?_, ?_, ?_, ?_⟩
  · rw [hp1]
    dsimp only
    omega
  · rw [hp1]
    dsimp only
    omega
  · rw [hp1]
    dsimp only
    intro k₁ hk₁
    have hne : k₁ ≠ k := fun hh => hknotin (hh ▸ hk₁)
    obtain ⟨e₂, hE₂, hpin₂⟩ := hlru k₁ (by rw [hL]; exact List.mem_cons_of_mem _ hk₁)
    exact ⟨e₂, by rw [alistLookup_erase k k₁ _ hne]; exact hE₂, hpin₂⟩
  · rw [hp1]
    exact hndrest
  · rw [hp1]
  · rw [hp1, hL]
    rfl
  · intro k₁ hk₁
    rw [hp1]
    exact alistLookup_erase_none k k₁ _ hk₁
  · intro k₁ e₂ hE₂ hpin₂
    have hne : k₁ ≠ k := by
      intro hh
      subst hh
      have he₂ : e₂ = e := Option.some.inj (hE₂.symm.trans hE)
      rw [he₂, hpin₁] at hpin₂
      exact Bool.false_ne_true hpin₂
    rw [hp1]
    rw [alistLookup_erase k k₁ _ hne]
    exact hE₂
  · exact ⟨k, e, by rw [hL]; rfl, hE, hpin₁, hp2⟩

theorem evictLoopFuel_preserves (size : Nat) :
    ∀ (fuel : Nat) (s : CacheState K), CacheInv s →
      ∀ s₁, WSITileGraphicsItemCache.evictLoopFuel size fuel s = some s₁ →
        CacheInv s₁ ∧ s₁.maxByteSize = s.maxByteSize ∧
        (∀ k₁, alistLookup k₁ s.cache = none → alistLookup k₁ s₁.cache = none) ∧
        (s₁.currentByteSize + size ≤ s₁.maxByteSize ∨ s₁.currentByteSize = 0) := by
  intro fuel
  induction fuel with
  | zero =>
    intro s _ s₁ h
    simp [WSITileGraphicsItemCache.evictLoopFuel] at h
  | succ fuel ih =>
    intro s hInv s₁ h
    rw [WSITileGraphicsItemCache.evictLoopFuel] at h
    split_ifs at h with hcond
    · rcases hev : WSITileGraphicsItemCache.evict s with _ | p <;> rw [hev] at h
      · simp at h
      · obtain ⟨hInv₁, hmax₁, _, hnone₁, _, _⟩ := evict_preserves s hInv hev
        obtain ⟨hi₁, hi₂, hi₃, hi₄⟩ := ih p.1 hInv₁ s₁ h
        exact ⟨hi₁, hi₂.trans hmax₁, fun k₁ hk₁ => hi₃ k₁ (hnone₁ k₁ hk₁), hi₄⟩
    · obtain rfl : s = s₁ := Option.some.inj h
      push_neg at hcond
      refine ⟨hInv, rfl, fun _ hk => hk, ?_⟩
      by_cases hgt : s.currentByteSize + size > s.maxByteSize
      · exact Or.inr (hcond hgt)
      · exact Or.inl (by omega)

theorem set_preserves (s : CacheState K) (hInv : CacheInv s) {k : K}
    {v size : Nat} {topLevel : Bool} {s₁ : CacheState K} {r : Nat}
    (h : WSITileGraphicsItemCache.set s k v size topLevel = some (s₁, r)) :
    CacheInv s₁ := by
  by_cases hdup : (alistLookup k s.cache).isSome
  · rw [show WSITileGraphicsItemCache.set s k v size topLevel = some (s, 1) from by
      simp [WSITileGraphicsItemCache.set, hdup]] at h
    injection Option.some.inj h with h1 h2
    exact h1 ▸ hInv
  · by_cases hbig : size > s.maxByteSize
    · rw [show WSITileGraphicsItemCache.set s k v size topLevel = some (s, 1) from by
        simp [WSITileGraphicsItemCache.set, hdup, hbig]] at h
      injection Option.some.inj h with h1 h2
      exact h1 ▸ hInv
    · rcases hE : WSITileGraphicsItemCache.evictLoop s size with _ | s₂
      · rw [show WSITileGraphicsItemCache.set s k v size topLevel = none from by
          simp [WSITileGraphicsItemCache.set, hdup, hbig, hE]] at h
        exact absurd h (by simp)
      · have hkn₀ : alistLookup k s.cache = none :=
          Option.not_isSome_iff_eq_none.mp hdup
        obtain ⟨⟨hsum₂, hle₂, hlru₂, hnd₂⟩, hmax₂, hnone₂, hexit₂⟩ :=
          evictLoopFuel_preserves size (s.lru.length + 1) s hInv s₂ hE
        have hkn : alistLookup k s₂.cache = none := hnone₂ k hkn₀
        have hknotin : k ∉ s₂.lru := by
          intro hmem
          obtain ⟨e₁, hE₁, -⟩ := hlru₂ k hmem
          rw [hkn] at hE₁
          exact absurd hE₁ (by simp)
        have hsize : size ≤ s₂.maxByteSize := by
          rw [hmax₂]
          omega
        rw [show WSITileGraphicsItemCache.set s k v size topLevel =
            (if topLevel then
              some ({ s₂ with
                      cache := alistSet k ⟨v, size, true⟩ s₂.cache
                      currentByteSize := s₂.currentByteSize + size }, 0)
            else
              some ({ s₂ with
                      cache := alistSet k ⟨v, size, false⟩ s₂.cache
                      lru := s₂.lru ++ [k]
                      currentByteSize := s₂.currentByteSize + size }, 0)) from by
          simp [WSITileGraphicsItemCache.set, hdup, hbig, hE]] at h
        by_cases htop : topLevel
        · rw [if_pos htop] at h
          injection Option.some.inj h with h1 h2
          subst h1
          refine ⟨?_, ?_, ?_, hnd₂⟩
          · dsimp only
            rw [sumSizes_set_absent k _ _ hkn]
            dsimp only
            omega
          · dsimp only
            rcases hexit₂ with hb | hz <;> omega
          · dsimp only
            intro k₁ hk₁
            obtain ⟨e₁, hE₁, hpin₁⟩ := hlru₂ k₁ hk₁
            have hne : k₁ ≠ k := by
              intro hh
              rw [hh, hkn] at hE₁
              exact absurd hE₁ (by simp)
            exact ⟨e₁, by rw [alistLookup_set_ne k k₁ _ _ hne]; exact hE₁, hpin₁⟩
        · rw [if_neg htop] at h
          injection Option.some.inj h with h1 h2
          subst h1
          refine ⟨?_, ?_, ?_, ?_⟩
          · dsimp only
            rw [sumSizes_set_absent k _ _ hkn]
            dsimp only
            omega
          · dsimp only
            rcases hexit₂ with hb | hz <;> omega
          · dsimp only
            intro k₁ hk₁
            rcases List.mem_append.mp hk₁ with hk₁ | hk₁
            · obtain ⟨e₁, hE₁, hpin₁⟩ := hlru₂ k₁ hk₁
              have hne : k₁ ≠ k := by
                intro hh
                rw [hh, hkn] at hE₁
                exact absurd hE₁ (by simp)
              exact ⟨e₁, by rw [alistLookup_set_ne k k₁ _ _ hne]; exact hE₁, hpin₁⟩
            · have hkk : k₁ = k := List.mem_singleton.mp hk₁
              rw [hkk]
              exact ⟨⟨v, size, false⟩, alistLookup_set_self k _ _, rfl⟩
          · dsimp only
            rw [List.nodup_append]
            exact ⟨hnd₂, List.nodup_singleton k,
              fun a ha hb => hknotin ((List.mem_singleton.mp hb) ▸ ha)⟩

theorem reachable_cacheInv {s : CacheState K}
    (h : WSITileGraphicsItemCache.Reachable s) : CacheInv s := by
  induction h with
  | init max =>
    refine ⟨rfl, Nat.zero_le _, ?_, List.nodup_nil⟩
    intro k hk
    exact absurd hk (List.not_mem_nil k)
  | step_set hs hset ih => exact set_preserves _ ih hset
  | step_evict hs hev ih => exact (evict_preserves _ ih hev).1

end CacheLemmas

/-- Claim C1: along every sequence of `set`/`evict` calls from an empty
cache, after every call the total byte size of the unpinned entries is at
most `_cacheMaxByteSize`; and `evict` only ever removes an unpinned entry
(the `_LRU` front is always unpinned) while every pinned entry survives
it. -/
theorem cache_unpinned_bytes_bounded {K : Type} [DecidableEq K]
    (s : CacheState K) (h : WSITileGraphicsItemCache.Reachable s) :
    sumUnpinnedSizes s.cache ≤ s.maxByteSize ∧
    ∀ p, WSITileGraphicsItemCache.evict s = some p →
      (∃ k e, s.lru.head? = some k ∧ alistLookup k s.cache = some e ∧
        e.pinned = false ∧ p.2 = e.item) ∧
      (∀ k e, alistLookup k s.cache = some e → e.pinned = true →
        alistLookup k p.1.cache = some e) := by
  have hInv := reachable_cacheInv h
  constructor
  · calc sumUnpinnedSizes s.cache ≤ sumSizes s.cache := sumUnpinned_le_sumSizes _
      _ = s.currentByteSize := hInv.1.symm
      _ ≤ s.maxByteSize := hInv.2.1
  · intro p hp
    obtain ⟨_, _, _, _, hpin, hhead⟩ := evict_preserves s hInv hp
    exact ⟨hhead, hpin⟩

/-- Witness for C1 at a concrete reachable cache: two unpinned insertions
(4 and 5 bytes) into an empty 10-byte cache. -/
theorem cache_unpinned_bytes_bounded_w :
    sumUnpinnedSizes twoEntryState.cache ≤ twoEntryState.maxByteSize ∧
    ∀ p, WSITileGraphicsItemCache.evict twoEntryState = some p →
      (∃ k e, twoEntryState.lru.head? = some k ∧
        alistLookup k twoEntryState.cache = some e ∧
        e.pinned = false ∧ p.2 = e.item) ∧
      (∀ k e, alistLookup k twoEntryState.cache = some e → e.pinned = true →
        alistLookup k p.1.cache = some e) :=
  cache_unpinned_bytes_bounded twoEntryState
    (WSITileGraphicsItemCache.Reachable.step_set
      (WSITileGraphicsItemCache.Reachable.step_set
        (WSITileGraphicsItemCache.Reachable.init 10)
        (show WSITileGraphicsItemCache.set (WSITileGraphicsItemCache.init 10)
            "0_0_0" 1 4 false
          = some ({ cache := [("0_0_0", ⟨1, 4, false⟩)], lru := ["0_0_0"],
                    maxByteSize := 10, currentByteSize := 4 }, 0) by decide))
      (show WSITileGraphicsItemCache.set
            { cache := [("0_0_0", ⟨1, 4, false⟩)], lru := ["0_0_0"],
              maxByteSize := 10, currentByteSize := 4 } "1_0_0" 2 5 false
          = some (twoEntryState, 0) by decide))

/-- Claim C3 (code bug): in the reachable state `pinnedOnlyState` — one
pinned 6-byte entry, budget 10, `_LRU` empty — inserting an unpinned 6-byte
entry drives `set` into its eviction loop (`_cacheCurrentByteSize + size >
_cacheMaxByteSize` and `_cacheCurrentByteSize != 0`), where `evict` reads
`_LRU.front()` of an empty list: undefined behaviour, modelled as `none`.
The eviction loop is guarded by `_cacheCurrentByteSize != 0`, not by
`_LRU` being non-empty, so pinned bytes do feed the eviction trigger. -/
theorem set_evicts_on_empty_lru :
    WSITileGraphicsItemCache.Reachable pinnedOnlyState ∧
    WSITileGraphicsItemCache.set pinnedOnlyState "0_0_0" 2 6 false = none :=
  ⟨WSITileGraphicsItemCache.Reachable.step_set
    (WSITileGraphicsItemCache.Reachable.init 10)
    (show WSITileGraphicsItemCache.set (WSITileGraphicsItemCache.init 10)
        "overview" 1 6 true = some (pinnedOnlyState, 0) by decide),
   by decide⟩

/-- Claim C9: `get` on an absent key answers `NULL` and returns the state
unchanged (no entry added or removed, `_LRU` untouched, byte size
unchanged); `get` on a pinned entry returns the entry, again with the state
unchanged, and the key is not in the eviction-candidate list at all. -/
theorem tile_get_miss_pinned_frame {K : Type} [DecidableEq K]
    (s : CacheState K) (h : WSITileGraphicsItemCache.Reachable s) (k : K) :
    (alistLookup k s.cache = none →
      WSITileGraphicsItemCache.get s k = (none, s)) ∧
    (∀ e, alistLookup k s.cache = some e → e.pinned = true →
      WSITileGraphicsItemCache.get s k = (some (e.item, e.size), s) ∧
      k ∉ s.lru) := by
  have hInv := reachable_cacheInv h
  constructor
  · intro hk
    unfold WSITileGraphicsItemCache.get
    rw [hk]
  · intro e hk hpin
    constructor
    · unfold WSITileGraphicsItemCache.get
      rw [hk]
      simp [hpin]
    · intro hmem
      obtain ⟨e₁, hE₁, hpin₁⟩ := hInv.2.2.1 k hmem
      have hee : e = e₁ := Option.some.inj (hk.symm.trans hE₁)
      rw [← hee, hpin] at hpin₁
      exact absurd hpin₁ (by simp)

/-- Witness for C9: a reachable cache with one pinned entry, queried at the
pinned key and at an absent key. -/
theorem tile_get_miss_pinned_frame_w :
    (WSITileGraphicsItemCache.get pinnedGetState "0_0_1"
        = (some (3, 8), pinnedGetState) ∧
      "0_0_1" ∉ pinnedGetState.lru) ∧
    WSITileGraphicsItemCache.get pinnedGetState "9_9_9"
      = (none, pinnedGetState) := by
  have hr : WSITileGraphicsItemCache.Reachable pinnedGetState :=
    WSITileGraphicsItemCache.Reachable.step_set
      (WSITileGraphicsItemCache.Reachable.init 100)
      (show WSITileGraphicsItemCache.set (WSITileGraphicsItemCache.init 100)
          "0_0_1" 3 8 true = some (pinnedGetState, 0) by decide)
  exact ⟨(tile_get_miss_pinned_frame pinnedGetState hr "0_0_1").2
      ⟨3, 8, true⟩ (by decide) rfl,
    (tile_get_miss_pinned_frame pinnedGetState hr "9_9_9").1 (by decide)⟩

/-- Claim C4 (code bug): `executeIOJob` dereferences the resolved background
handle on its second line (`local_bck_img->getLevelDownsample`,
`IOWorker.cpp:136`) before the `if (local_bck_img)` test on line 158, so a
job executed after the image was closed (an expired weak reference,
`lock()` empty) hits a null dereference — `none` — instead of aborting; with
a live handle the job completes and emits `tileLoaded`. -/
theorem executeIOJob_null_deref (ts : Nat) (x y : Int) (level : Nat) :
    IOWorker.executeIOJob none ts x y level = none ∧
    ∀ img : MultiResolutionImage,
      IOWorker.executeIOJob (some img) ts x y level =
        some ({ imgPosX := x, imgPosY := y, tileSize := ts,
                byteSize := ts * ts * img.samplesPerPixel, level := level },
          true) :=
  ⟨rfl, fun _ => rfl⟩

/-- Counterexample to claim C2 as stated: in `coveredTileState` the level-0
tile (0, 0) has coverage state Covered (`providesCoverage` answers 2), yet
`isCovered(0, 0, 0)` is `false` — `isCovered` returns `false` for level 0
unconditionally (`TileManager.cpp:371`). -/
theorem isCovered_level_zero_cex :
    TileManager.providesCoverage coveredTileState.coverage 0 0 0 = 2 ∧
    TileManager.isCovered coveredTileState 0 0 0 = false := by
  decide

/-- Claim C2 as amended: `isCovered(0, x, y)` is always `false`; for a level
`L > 0` and non-negative tile coordinates, `isCovered(L, x, y)` is `true`
exactly when all `downsampleRatio²` corresponding finer tiles at level
`L - 1` provide coverage 2 (Covered). -/
theorem isCovered_block_spec (s : TileManager.State) (level : Nat) (x y : Int)
    (hl : 0 < level) (hx : 0 ≤ x) (hy : 0 ≤ y) :
    (TileManager.isCovered s level x y = true ↔
      ∀ xi < TileManager.downsampleRatio s level,
        ∀ yi < TileManager.downsampleRatio s level,
          TileManager.providesCoverage s.coverage (level - 1)
            ((TileManager.downsampleRatio s level : Int) * x + (xi : Int))
            ((TileManager.downsampleRatio s level : Int) * y + (yi : Int)) = 2) ∧
    ∀ x₁ y₁ : Int, TileManager.isCovered s 0 x₁ y₁ = false := by
  constructor
  · unfold TileManager.isCovered
    rw [if_pos hl, if_neg (by omega : ¬(x < 0 ∨ y < 0))]
    simp [List.all_eq_true, List.mem_range]
  · intro x₁ y₁
    rfl

/-- Witness for C2 (amended) at `coveredTileState`, level 1, tile (0, 0). -/
theorem isCovered_block_spec_w :
    (TileManager.isCovered coveredTileState 1 0 0 = true ↔
      ∀ xi < TileManager.downsampleRatio coveredTileState 1,
        ∀ yi < TileManager.downsampleRatio coveredTileState 1,
          TileManager.providesCoverage coveredTileState.coverage 0
            ((TileManager.downsampleRatio coveredTileState 1 : Int) * 0 + (xi : Int))
            ((TileManager.downsampleRatio coveredTileState 1 : Int) * 0 + (yi : Int)) = 2) ∧
    ∀ x₁ y₁ : Int, TileManager.isCovered coveredTileState 0 x₁ y₁ = false :=
  isCovered_block_spec coveredTileState 1 0 0 (by decide) (by decide) (by decide)

/-- The floor-multiple bracketing behind the coordinate round trip:
`⌊a / c⌋ · c` is at most `a` and `a` falls short of the next multiple. -/
theorem floor_mul_le_and_lt (a c : ℚ) (hc : 0 < c) :
    (⌊a / c⌋ : ℚ) * c ≤ a ∧ a < (⌊a / c⌋ : ℚ) * c + c := by
  constructor
  · calc (⌊a / c⌋ : ℚ) * c ≤ (a / c) * c :=
        mul_le_mul_of_nonneg_right (Int.floor_le (a / c)) hc.le
      _ = a := div_mul_cancel₀ a (ne_of_gt hc)
  · calc a = (a / c) * c := (div_mul_cancel₀ a (ne_of_gt hc)).symm
      _ < ((⌊a / c⌋ : ℚ) + 1) * c :=
        mul_lt_mul_of_pos_right (Int.lt_floor_add_one (a / c)) hc
      _ = (⌊a / c⌋ : ℚ) * c + c := by ring

/-- Claim C8: for a valid level (positive downsample, positive tile size)
and a point with non-negative coordinates (inside the image bounds),
converting the point to tile coordinates and back yields, on each axis, the
floor multiple of `levelDownsample · tileSize`: the largest multiple of the
tile pitch that does not exceed the coordinate — the top-left pixel corner
of the tile containing the point. -/
theorem coord_round_trip (s : TileManager.State) (level : Nat) (p : ℚ × ℚ)
    (hlev : level < s.levelDownsamples.length)
    (hds : 0 < s.levelDownsamples.getD level 0)
    (hts : 0 < s.tileSize)
    (hp₁ : 0 ≤ p.1) (hp₂ : 0 ≤ p.2) :
    (TileManager.tileCoordinatesToPixelCoordinates s
        (TileManager.pixelCoordinatesToTileCoordinates s p level) level).1 =
      (⌊p.1 / (s.levelDownsamples.getD level 0 * (s.tileSize : ℚ))⌋ : ℚ) *
        (s.levelDownsamples.getD level 0 * (s.tileSize : ℚ)) ∧
    (TileManager.tileCoordinatesToPixelCoordinates s
        (TileManager.pixelCoordinatesToTileCoordinates s p level) level).1 ≤ p.1 ∧
    p.1 < (TileManager.tileCoordinatesToPixelCoordinates s
        (TileManager.pixelCoordinatesToTileCoordinates s p level) level).1 +
      s.levelDownsamples.getD level 0 * (s.tileSize : ℚ) ∧
    (TileManager.tileCoordinatesToPixelCoordinates s
        (TileManager.pixelCoordinatesToTileCoordinates s p level) level).2 =
      (⌊p.2 / (s.levelDownsamples.getD level 0 * (s.tileSize : ℚ))⌋ : ℚ) *
        (s.levelDownsamples.getD level 0 * (s.tileSize : ℚ)) ∧
    (TileManager.tileCoordinatesToPixelCoordinates s
        (TileManager.pixelCoordinatesToTileCoordinates s p level) level).2 ≤ p.2 ∧
    p.2 < (TileManager.tileCoordinatesToPixelCoordinates s
        (TileManager.pixelCoordinatesToTileCoordinates s p level) level).2 +
      s.levelDownsamples.getD level 0 * (s.tileSize : ℚ) := by
  have hT : (0 : ℚ) < (s.tileSize : ℚ) := by exact_mod_cast hts
  have hd : 0 < s.levelDownsamples.getD level 0 * (s.tileSize : ℚ) :=
    mul_pos hds hT
  have hq : TileManager.tileCoordinatesToPixelCoordinates s
      (TileManager.pixelCoordinatesToTileCoordinates s p level) level =
      ((⌊p.1 / (s.levelDownsamples.getD level 0 * (s.tileSize : ℚ))⌋ : ℚ) *
        (s.levelDownsamples.getD level 0 * (s.tileSize : ℚ)),
       (⌊p.2 / (s.levelDownsamples.getD level 0 * (s.tileSize : ℚ))⌋ : ℚ) *
        (s.levelDownsamples.getD level 0 * (s.tileSize : ℚ))) := by
    unfold TileManager.tileCoordinatesToPixelCoordinates
      TileManager.pixelCoordinatesToTileCoordinates
    rw [if_pos hlev, if_pos hlev]
    dsimp only
    rw [div_div, div_div, mul_assoc, mul_assoc]
  rw [hq]
  dsimp only
  obtain ⟨h₁le, h₁lt⟩ := floor_mul_le_and_lt p.1 _ hd
  obtain ⟨h₂le, h₂lt⟩ := floor_mul_le_and_lt p.2 _ hd
  exact ⟨rfl, h₁le, h₁lt, rfl, h₂le, h₂lt⟩

/-- Witness for C8 at `imageState` (tile pitch 4 · 256 = 1024 at level 1)
and the point (3000, 500). -/
theorem coord_round_trip_w :
    (TileManager.tileCoordinatesToPixelCoordinates imageState
        (TileManager.pixelCoordinatesToTileCoordinates imageState (3000, 500) 1) 1).1 =
      (⌊(3000 : ℚ) / (imageState.levelDownsamples.getD 1 0 * (imageState.tileSize : ℚ))⌋ : ℚ) *
        (imageState.levelDownsamples.getD 1 0 * (imageState.tileSize : ℚ)) ∧
    (TileManager.tileCoordinatesToPixelCoordinates imageState
        (TileManager.pixelCoordinatesToTileCoordinates imageState (3000, 500) 1) 1).1 ≤ 3000 ∧
    (3000 : ℚ) < (TileManager.tileCoordinatesToPixelCoordinates imageState
        (TileManager.pixelCoordinatesToTileCoordinates imageState (3000, 500) 1) 1).1 +
      imageState.levelDownsamples.getD 1 0 * (imageState.tileSize : ℚ) ∧
    (TileManager.tileCoordinatesToPixelCoordinates imageState
        (TileManager.pixelCoordinatesToTileCoordinates imageState (3000, 500) 1) 1).2 =
      (⌊(500 : ℚ) / (imageState.levelDownsamples.getD 1 0 * (imageState.tileSize : ℚ))⌋ : ℚ) *
        (imageState.levelDownsamples.getD 1 0 * (imageState.tileSize : ℚ)) ∧
    (TileManager.tileCoordinatesToPixelCoordinates imageState
        (TileManager.pixelCoordinatesToTileCoordinates imageState (3000, 500) 1) 1).2 ≤ 500 ∧
    (500 : ℚ) < (TileManager.tileCoordinatesToPixelCoordinates imageState
        (TileManager.pixelCoordinatesToTileCoordinates imageState (3000, 500) 1) 1).2 +
      imageState.levelDownsamples.getD 1 0 * (imageState.tileSize : ℚ) :=
  coord_round_trip imageState 1 (3000, 500) (by decide) (by norm_num [imageState])
    (by decide) (by norm_num) (by norm_num)

/-- Claim C10: for a level index at or beyond the number of levels,
`pixelCoordinatesToTileCoordinates`, `tileCoordinatesToPixelCoordinates`
and `getLevelTiles` are total and answer the default `QPoint()` = (0, 0);
and an in-range call can also answer (0, 0), so the caller cannot tell the
two apart. -/
theorem out_of_range_level_defaults (s : TileManager.State) (level : Nat)
    (p : ℚ × ℚ) (t : Int × Int)
    (h₁ : s.levelDownsamples.length ≤ level)
    (h₂ : s.levelDimensions.length ≤ level) :
    TileManager.pixelCoordinatesToTileCoordinates s p level = (0, 0) ∧
    TileManager.tileCoordinatesToPixelCoordinates s t level = (0, 0) ∧
    TileManager.getLevelTiles s level = (0, 0) ∧
    ∃ (s₀ : TileManager.State) (p₀ : ℚ × ℚ) (level₀ : Nat),
      level₀ < s₀.levelDownsamples.length ∧
      TileManager.pixelCoordinatesToTileCoordinates s₀ p₀ level₀ = (0, 0) := by
  refine ⟨?_, ?_, ?_,
    ⟨⟨1, 0, [1], [(1, 1)], fun _ => [], ((0, 0), (-1, -1)), 0⟩, (0, 0), 0,
      by decide, by norm_num [TileManager.pixelCoordinatesToTileCoordinates]⟩⟩
  · unfold TileManager.pixelCoordinatesToTileCoordinates
    rw [if_neg (Nat.not_lt.mpr h₁)]
  · unfold TileManager.tileCoordinatesToPixelCoordinates
    rw [if_neg (Nat.not_lt.mpr h₁)]
  · unfold TileManager.getLevelTiles
    rw [if_neg (Nat.not_lt.mpr h₂)]

/-- For non-negative coordinates `providesCoverage` is exactly the stored
value with default 0 (the empty-level and negative-coordinate branches do
not apply). -/
theorem providesCoverage_nonneg (cov : CoverageMap) (level : Nat) (x y : Int)
    (hx : 0 ≤ x) (hy : 0 ≤ y) :
    TileManager.providesCoverage cov level x y = covValue cov level x y := by
  unfold TileManager.providesCoverage
  by_cases hc : cov level = []
  · rw [if_pos hc]
    unfold covValue
    rw [hc]
    rfl
  · rw [if_neg hc, if_neg (by omega : ¬(x < 0 ∨ y < 0))]

theorem covValue_set_self (cov : CoverageMap) (l : Nat) (x y : Int) (v : Nat) :
    covValue (TileManager.setCoverage cov l x y v) l x y = v := by
  simp [covValue, TileManager.setCoverage, alistLookup_set_self]

theorem covValue_set_ne (cov : CoverageMap) (l : Nat) (x y : Int) (v : Nat)
    (l₁ : Nat) (x₁ y₁ : Int) (h : ¬(l₁ = l ∧ x₁ = x ∧ y₁ = y)) :
    covValue (TileManager.setCoverage cov l x y v) l₁ x₁ y₁ =
      covValue cov l₁ x₁ y₁ := by
  unfold covValue TileManager.setCoverage
  by_cases hl : l₁ = l
  · rw [if_pos hl]
    have hne : ((x₁, y₁) : Int × Int) ≠ (x, y) := by
      intro hp
      obtain ⟨hpx, hpy⟩ := Prod.ext_iff.mp hp
      exact h ⟨hl, hpx, hpy⟩
    rw [alistLookup_set_ne _ _ _ _ hne]
  · rw [if_neg hl]

theorem intRange_nodup (a b : Int) : (TileManager.intRange a b).Nodup := by
  unfold TileManager.intRange
  refine List.Nodup.map ?_ (List.nodup_range _)
  intro m n hmn
  dsimp only at hmn
  exact Int.ofNat.inj (add_left_cancel hmn)

/-- What one pass of the inner `y` loop of `loadTilesForFieldOfView` does:
every emitted job is an `IOJob` for the fixed column `x` and an in-range
`y ∈ ys` whose coverage was 0 before and is 1 after; the emitted rows are
distinct; and the coverage of every other key is untouched. -/
theorem loadTilesY_spec (ts lvl : Nat) (nrY x : Int) (hx : 0 ≤ x) :
    ∀ (ys : List Int), ys.Nodup → ∀ (cov : CoverageMap),
      (∀ j ∈ (TileManager.loadTilesY ts lvl nrY x ys cov).2,
        ∃ y, j = ThreadJob.ioJob ts x y lvl ∧ y ∈ ys ∧ 0 ≤ y ∧ y ≤ nrY ∧
          covValue cov lvl x y = 0 ∧
          covValue (TileManager.loadTilesY ts lvl nrY x ys cov).1 lvl x y = 1) ∧
      ((TileManager.loadTilesY ts lvl nrY x ys cov).2.map ThreadJob.posY).Nodup ∧
      (∀ (l₁ : Nat) (x₁ y₁ : Int),
        ¬(l₁ = lvl ∧ x₁ = x ∧ y₁ ∈ ys ∧ 0 ≤ y₁ ∧ y₁ ≤ nrY) →
        covValue (TileManager.loadTilesY ts lvl nrY x ys cov).1 l₁ x₁ y₁ =
          covValue cov l₁ x₁ y₁) := by
  intro ys
  induction ys with
  | nil =>
    intro _ cov
    refine ⟨?_, ?_, ?_⟩ <;> simp [TileManager.loadTilesY]
  | cons y rest ih =>
    intro hnd cov
    obtain ⟨hynotin, hndrest⟩ := List.nodup_cons.mp hnd
    by_cases hyr : 0 ≤ y ∧ y ≤ nrY
    · by_cases hcv : TileManager.providesCoverage cov lvl x y < 1
      · have hcv0 : covValue cov lvl x y = 0 := by
          rw [providesCoverage_nonneg cov lvl x y hx hyr.1] at hcv
          omega
        have hload : TileManager.loadTilesY ts lvl nrY x (y :: rest) cov =
            ((TileManager.loadTilesY ts lvl nrY x rest
                (TileManager.setCoverage cov lvl x y 1)).1,
              ThreadJob.ioJob ts x y lvl ::
                (TileManager.loadTilesY ts lvl nrY x rest
                  (TileManager.setCoverage cov lvl x y 1)).2) := by
          simp only [TileManager.loadTilesY]
          rw [if_pos hyr, if_pos hcv]
        obtain ⟨ih₁, ih₂, ih₃⟩ :=
          ih hndrest (TileManager.setCoverage cov lvl x y 1)
        rw [hload]
        refine ⟨?_, ?_, ?_⟩
        · intro j hj
          rcases List.mem_cons.mp hj with hj | hj
          · refine ⟨y, hj, List.mem_cons_self _ _, hyr.1, hyr.2, hcv0, ?_⟩
            rw [ih₃ lvl x y (fun hc => hynotin hc.2.2.1)]
            exact covValue_set_self cov lvl x y 1
          · obtain ⟨y₁, hj₁, hy₁mem, hy₁0, hy₁n, hcv₁, hfin₁⟩ := ih₁ j hj
            refine ⟨y₁, hj₁, List.mem_cons_of_mem _ hy₁mem, hy₁0, hy₁n, ?_, hfin₁⟩
            rw [covValue_set_ne cov lvl x y 1 lvl x y₁
              (fun hc => hynotin (hc.2.2 ▸ hy₁mem))] at hcv₁
            exact hcv₁
        · rw [List.map_cons, List.nodup_cons]
          refine ⟨?_, ih₂⟩
          intro hmem
          obtain ⟨j, hj, hjy⟩ := List.mem_map.mp hmem
          obtain ⟨y₁, hj₁, hy₁mem, -⟩ := ih₁ j hj
          rw [hj₁] at hjy
          simp only [ThreadJob.posY] at hjy
          exact hynotin (hjy ▸ hy₁mem)
        · intro l₁ x₁ y₁ hno
          rw [ih₃ l₁ x₁ y₁
            (fun hc => hno ⟨hc.1, hc.2.1, List.mem_cons_of_mem _ hc.2.2.1,
              hc.2.2.2⟩)]
          refine covValue_set_ne cov lvl x y 1 l₁ x₁ y₁ (fun hc => hno ?_)
          refine ⟨hc.1, hc.2.1, ?_, ?_, ?_⟩
          · rw [hc.2.2]
            exact List.mem_cons_self _ _
          · rw [hc.2.2]
            exact hyr.1
          · rw [hc.2.2]
            exact hyr.2
      · have hload : TileManager.loadTilesY ts lvl nrY x (y :: rest) cov =
            TileManager.loadTilesY ts lvl nrY x rest cov := by
          simp only [TileManager.loadTilesY]
          rw [if_pos hyr, if_neg hcv]
        obtain ⟨ih₁, ih₂, ih₃⟩ := ih hndrest cov
        rw [hload]
        refine ⟨?_, ih₂, ?_⟩
        · intro j hj
          obtain ⟨y₁, hj₁, hy₁mem, hy₁0, hy₁n, hcv₁, hfin₁⟩ := ih₁ j hj
          exact ⟨y₁, hj₁, List.mem_cons_of_mem _ hy₁mem, hy₁0, hy₁n, hcv₁, hfin₁⟩
        · intro l₁ x₁ y₁ hno
          exact ih₃ l₁ x₁ y₁
            (fun hc => hno ⟨hc.1, hc.2.1, List.mem_cons_of_mem _ hc.2.2.1,
              hc.2.2.2⟩)
    · have hload : TileManager.loadTilesY ts lvl nrY x (y :: rest) cov =
          TileManager.loadTilesY ts lvl nrY x rest cov := by
        simp only [TileManager.loadTilesY]
        rw [if_neg hyr]
      obtain ⟨ih₁, ih₂, ih₃⟩ := ih hndrest cov
      rw [hload]
      refine ⟨?_, ih₂, ?_⟩
      · intro j hj
        obtain ⟨y₁, hj₁, hy₁mem, hy₁0, hy₁n, hcv₁, hfin₁⟩ := ih₁ j hj
        exact ⟨y₁, hj₁, List.mem_cons_of_mem _ hy₁mem, hy₁0, hy₁n, hcv₁, hfin₁⟩
      · intro l₁ x₁ y₁ hno
        exact ih₃ l₁ x₁ y₁
          (fun hc => hno ⟨hc.1, hc.2.1, List.mem_cons_of_mem _ hc.2.2.1,
            hc.2.2.2⟩)

/-- What the outer `x` loop of `loadTilesForFieldOfView` does: every emitted
job is an `IOJob` for in-range `x ∈ xs`, `y ∈ ys` whose coverage was 0
before and is 1 after; the emitted tile keys are pairwise distinct; and
every other key keeps its coverage. -/
theorem loadTilesX_spec (ts lvl : Nat) (nrX nrY : Int) :
    ∀ (xs : List Int), xs.Nodup → ∀ (ys : List Int), ys.Nodup →
      ∀ (cov : CoverageMap),
      (∀ j ∈ (TileManager.loadTilesX ts lvl nrX nrY xs ys cov).2,
        ∃ x y, j = ThreadJob.ioJob ts x y lvl ∧ x ∈ xs ∧ 0 ≤ x ∧ x ≤ nrX ∧
          y ∈ ys ∧ 0 ≤ y ∧ y ≤ nrY ∧
          covValue cov lvl x y = 0 ∧
          covValue (TileManager.loadTilesX ts lvl nrX nrY xs ys cov).1 lvl x y = 1) ∧
      ((TileManager.loadTilesX ts lvl nrX nrY xs ys cov).2.map
          (fun j => (ThreadJob.posX j, ThreadJob.posY j))).Nodup ∧
      (∀ (l₁ : Nat) (x₁ y₁ : Int),
        ¬(l₁ = lvl ∧ x₁ ∈ xs ∧ 0 ≤ x₁ ∧ x₁ ≤ nrX ∧
          y₁ ∈ ys ∧ 0 ≤ y₁ ∧ y₁ ≤ nrY) →
        covValue (TileManager.loadTilesX ts lvl nrX nrY xs ys cov).1 l₁ x₁ y₁ =
          covValue cov l₁ x₁ y₁) := by
  intro xs
  induction xs with
  | nil =>
    intro _ ys _ cov
    refine ⟨?_, ?_, ?_⟩ <;> simp [TileManager.loadTilesX]
  | cons x restx ihx =>
    intro hndx ys hndy cov
    obtain ⟨hxnotin, hndrestx⟩ := List.nodup_cons.mp hndx
    by_cases hxr : 0 ≤ x ∧ x ≤ nrX
    · have hload : TileManager.loadTilesX ts lvl nrX nrY (x :: restx) ys cov =
          ((TileManager.loadTilesX ts lvl nrX nrY restx ys
              (TileManager.loadTilesY ts lvl nrY x ys cov).1).1,
            (TileManager.loadTilesY ts lvl nrY x ys cov).2 ++
              (TileManager.loadTilesX ts lvl nrX nrY restx ys
                (TileManager.loadTilesY ts lvl nrY x ys cov).1).2) := by
        simp only [TileManager.loadTilesX]
        rw [if_pos hxr]
      obtain ⟨y₁s, y₂s, y₃s⟩ := loadTilesY_spec ts lvl nrY x hxr.1 ys hndy cov
      obtain ⟨x₁s, x₂s, x₃s⟩ := ihx hndrestx ys hndy
        (TileManager.loadTilesY ts lvl nrY x ys cov).1
      rw [hload]
      refine ⟨?_, ?_, ?_⟩
      · intro j hj
        rcases List.mem_append.mp hj with hj | hj
        · obtain ⟨y, hjy, hymem, hy0, hyn, hcv0, hfin⟩ := y₁s j hj
          refine ⟨x, y, hjy, List.mem_cons_self _ _, hxr.1, hxr.2,
            hymem, hy0, hyn, hcv0, ?_⟩
          rw [x₃s lvl x y (fun hc => hxnotin hc.2.1)]
          exact hfin
        · obtain ⟨x₁, y₁, hjx, hx₁mem, hx₁0, hx₁n, hy₁mem, hy₁0, hy₁n,
            hcv₁, hfin₁⟩ := x₁s j hj
          refine ⟨x₁, y₁, hjx, List.mem_cons_of_mem _ hx₁mem, hx₁0, hx₁n,
            hy₁mem, hy₁0, hy₁n, ?_, hfin₁⟩
          rw [y₃s lvl x₁ y₁ (fun hc => hxnotin (hc.2.1 ▸ hx₁mem))] at hcv₁
          exact hcv₁
      · rw [List.map_append, List.nodup_append]
        refine ⟨?_, x₂s, ?_⟩
        · have hmapeq : (TileManager.loadTilesY ts lvl nrY x ys cov).2.map
              (fun j => (ThreadJob.posX j, ThreadJob.posY j)) =
              ((TileManager.loadTilesY ts lvl nrY x ys cov).2.map
                ThreadJob.posY).map (fun y => (x, y)) := by
            rw [List.map_map]
            refine List.map_congr_left ?_
            intro j hj
            obtain ⟨y, hjy, -⟩ := y₁s j hj
            rw [hjy]
            rfl
          rw [hmapeq]
          refine List.Nodup.map ?_ y₂s
          intro a b hab
          exact congrArg Prod.snd hab
        · intro a ha hb
          obtain ⟨j₁, hj₁, hkey₁⟩ := List.mem_map.mp ha
          obtain ⟨j₂, hj₂, hkey₂⟩ := List.mem_map.mp hb
          obtain ⟨y, hjy, -⟩ := y₁s j₁ hj₁
          obtain ⟨x₂, y₂, hjx, hx₂mem, -⟩ := x₁s j₂ hj₂
          apply hxnotin
          have hax : a.1 = x := by
            rw [← hkey₁, hjy]
            rfl
          have hax₂ : a.1 = x₂ := by
            rw [← hkey₂, hjx]
            rfl
          rw [← hax, hax₂]
          exact hx₂mem
      · intro l₁ x₁ y₁ hno
        rw [x₃s l₁ x₁ y₁
          (fun hc => hno ⟨hc.1, List.mem_cons_of_mem _ hc.2.1, hc.2.2⟩)]
        refine y₃s l₁ x₁ y₁ (fun hc => hno ?_)
        refine ⟨hc.1, ?_, ?_, ?_, hc.2.2⟩
        · rw [hc.2.1]
          exact List.mem_cons_self _ _
        · rw [hc.2.1]
          exact hxr.1
        · rw [hc.2.1]
          exact hxr.2
    · have hload : TileManager.loadTilesX ts lvl nrX nrY (x :: restx) ys cov =
          TileManager.loadTilesX ts lvl nrX nrY restx ys cov := by
        simp only [TileManager.loadTilesX]
        rw [if_neg hxr]
      obtain ⟨x₁s, x₂s, x₃s⟩ := ihx hndrestx ys hndy cov
      rw [hload]
      refine ⟨?_, x₂s, ?_⟩
      · intro j hj
        obtain ⟨x₁, y₁, hjx, hx₁mem, hx₁0, hx₁n, hrest⟩ := x₁s j hj
        exact ⟨x₁, y₁, hjx, List.mem_cons_of_mem _ hx₁mem, hx₁0, hx₁n, hrest⟩
      · intro l₁ x₁ y₁ hno
        exact x₃s l₁ x₁ y₁
          (fun hc => hno ⟨hc.1, List.mem_cons_of_mem _ hc.2.1, hc.2.2⟩)

/-- Claim C6: calling `loadTilesForFieldOfView` twice with the same field of
view and level (and no intervening change) enqueues nothing on the second
call — the tile rectangle and level match `_lastFOV`/`_lastLevel`; and
within one call the enqueued tile keys are pairwise distinct, every job is
an `IOJob` at the requested level for a tile whose coverage was Uncovered
(`providesCoverage = 0`), and that tile is left Pending
(`providesCoverage = 1`). -/
theorem loadTiles_idempotent_unique (s : TileManager.State)
    (fovTL fovBR : ℚ × ℚ) (level : Nat) :
    (TileManager.loadTilesForFieldOfView
        (TileManager.loadTilesForFieldOfView s fovTL fovBR level).1
        fovTL fovBR level).2 = [] ∧
    ((TileManager.loadTilesForFieldOfView s fovTL fovBR level).2.map
        (fun j => (ThreadJob.posX j, ThreadJob.posY j))).Nodup ∧
    ∀ j ∈ (TileManager.loadTilesForFieldOfView s fovTL fovBR level).2,
      j = ThreadJob.ioJob s.tileSize (ThreadJob.posX j) (ThreadJob.posY j)
          level ∧
      TileManager.providesCoverage s.coverage level
        (ThreadJob.posX j) (ThreadJob.posY j) = 0 ∧
      TileManager.providesCoverage
        (TileManager.loadTilesForFieldOfView s fovTL fovBR level).1.coverage
        level (ThreadJob.posX j) (ThreadJob.posY j) = 1 := by
  obtain ⟨ts, lrl, downs, dims, cov, lfov, llev⟩ := s
  by_cases hlvl : level > lrl
  · have h0 : TileManager.loadTilesForFieldOfView
        ⟨ts, lrl, downs, dims, cov, lfov, llev⟩ fovTL fovBR level =
        (⟨ts, lrl, downs, dims, cov, lfov, llev⟩, []) := by
      simp only [TileManager.loadTilesForFieldOfView]
      rw [if_pos hlvl]
    rw [h0]
    exact ⟨by rw [h0], by simp, by simp⟩
  · by_cases hfov :
      ((TileManager.pixelCoordinatesToTileCoordinates
          ⟨ts, lrl, downs, dims, cov, lfov, llev⟩ fovTL level,
        TileManager.pixelCoordinatesToTileCoordinates
          ⟨ts, lrl, downs, dims, cov, lfov, llev⟩ fovBR level) ≠ lfov ∨
        level ≠ llev)
    · have h0 : TileManager.loadTilesForFieldOfView
          ⟨ts, lrl, downs, dims, cov, lfov, llev⟩ fovTL fovBR level =
          (⟨ts, lrl, downs, dims,
            (TileManager.loadTilesX ts level
              (TileManager.getLevelTiles
                ⟨ts, lrl, downs, dims, cov, lfov, llev⟩ level).1
              (TileManager.getLevelTiles
                ⟨ts, lrl, downs, dims, cov, lfov, llev⟩ level).2
              (TileManager.intRange
                (TileManager.pixelCoordinatesToTileCoordinates
                  ⟨ts, lrl, downs, dims, cov, lfov, llev⟩ fovTL level).1
                (TileManager.pixelCoordinatesToTileCoordinates
                  ⟨ts, lrl, downs, dims, cov, lfov, llev⟩ fovBR level).1)
              (TileManager.intRange
                (TileManager.pixelCoordinatesToTileCoordinates
                  ⟨ts, lrl, downs, dims, cov, lfov, llev⟩ fovTL level).2
                (TileManager.pixelCoordinatesToTileCoordinates
                  ⟨ts, lrl, downs, dims, cov, lfov, llev⟩ fovBR level).2)
              cov).1,
            (TileManager.pixelCoordinatesToTileCoordinates
              ⟨ts, lrl, downs, dims, cov, lfov, llev⟩ fovTL level,
             TileManager.pixelCoordinatesToTileCoordinates
              ⟨ts, lrl, downs, dims, cov, lfov, llev⟩ fovBR level),
            level⟩,
           (TileManager.loadTilesX ts level
              (TileManager.getLevelTiles
                ⟨ts, lrl, downs, dims, cov, lfov, llev⟩ level).1
              (TileManager.getLevelTiles
                ⟨ts, lrl, downs, dims, cov, lfov, llev⟩ level).2
              (TileManager.intRange
                (TileManager.pixelCoordinatesToTileCoordinates
                  ⟨ts, lrl, downs, dims, cov, lfov, llev⟩ fovTL level).1
                (TileManager.pixelCoordinatesToTileCoordinates
                  ⟨ts, lrl, downs, dims, cov, lfov, llev⟩ fovBR level).1)
              (TileManager.intRange
                (TileManager.pixelCoordinatesToTileCoordinates
                  ⟨ts, lrl, downs, dims, cov, lfov, llev⟩ fovTL level).2
                (TileManager.pixelCoordinatesToTileCoordinates
                  ⟨ts, lrl, downs, dims, cov, lfov, llev⟩ fovBR level).2)
              cov).2) := by
        simp only [TileManager.loadTilesForFieldOfView]
        rw [if_neg hlvl, if_pos hfov]
      obtain ⟨x₁s, x₂s, x₃s⟩ := loadTilesX_spec ts level
        (TileManager.getLevelTiles ⟨ts, lrl, downs, dims, cov, lfov, llev⟩ level).1
        (TileManager.getLevelTiles ⟨ts, lrl, downs, dims, cov, lfov, llev⟩ level).2
        (TileManager.intRange
          (TileManager.pixelCoordinatesToTileCoordinates
            ⟨ts, lrl, downs, dims, cov, lfov, llev⟩ fovTL level).1
          (TileManager.pixelCoordinatesToTileCoordinates
            ⟨ts, lrl, downs, dims, cov, lfov, llev⟩ fovBR level).1)
        (intRange_nodup _ _)
        (TileManager.intRange
          (TileManager.pixelCoordinatesToTileCoordinates
            ⟨ts, lrl, downs, dims, cov, lfov, llev⟩ fovTL level).2
          (TileManager.pixelCoordinatesToTileCoordinates
            ⟨ts, lrl, downs, dims, cov, lfov, llev⟩ fovBR level).2)
        (intRange_nodup _ _) cov
      rw [h0]
      refine ⟨?_, x₂s, ?_⟩
      · dsimp only
        have h1 : TileManager.loadTilesForFieldOfView
            ⟨ts, lrl, downs, dims,
              (TileManager.loadTilesX ts level
                (TileManager.getLevelTiles
                  ⟨ts, lrl, downs, dims, cov, lfov, llev⟩ level).1
                (TileManager.getLevelTiles
                  ⟨ts, lrl, downs, dims, cov, lfov, llev⟩ level).2
                (TileManager.intRange
                  (TileManager.pixelCoordinatesToTileCoordinates
                    ⟨ts, lrl, downs, dims, cov, lfov, llev⟩ fovTL level).1
                  (TileManager.pixelCoordinatesToTileCoordinates
                    ⟨ts, lrl, downs, dims, cov, lfov, llev⟩ fovBR level).1)
                (TileManager.intRange
                  (TileManager.pixelCoordinatesToTileCoordinates
                    ⟨ts, lrl, downs, dims, cov, lfov, llev⟩ fovTL level).2
                  (TileManager.pixelCoordinatesToTileCoordinates
                    ⟨ts, lrl, downs, dims, cov, lfov, llev⟩ fovBR level).2)
                cov).1,
              (TileManager.pixelCoordinatesToTileCoordinates
                ⟨ts, lrl, downs, dims, cov, lfov, llev⟩ fovTL level,
               TileManager.pixelCoordinatesToTileCoordinates
                ⟨ts, lrl, downs, dims, cov, lfov, llev⟩ fovBR level),
              level⟩ fovTL fovBR level =
            (⟨ts, lrl, downs, dims,
              (TileManager.loadTilesX ts level
                (TileManager.getLevelTiles
                  ⟨ts, lrl, downs, dims, cov, lfov, llev⟩ level).1
                (TileManager.getLevelTiles
                  ⟨ts, lrl, downs, dims, cov, lfov, llev⟩ level).2
                (TileManager.intRange
                  (TileManager.pixelCoordinatesToTileCoordinates
                    ⟨ts, lrl, downs, dims, cov, lfov, llev⟩ fovTL level).1
                  (TileManager.pixelCoordinatesToTileCoordinates
                    ⟨ts, lrl, downs, dims, cov, lfov, llev⟩ fovBR level).1)
                (TileManager.intRange
                  (TileManager.pixelCoordinatesToTileCoordinates
                    ⟨ts, lrl, downs, dims, cov, lfov, llev⟩ fovTL level).2
                  (TileManager.pixelCoordinatesToTileCoordinates
                    ⟨ts, lrl, downs, dims, cov, lfov, llev⟩ fovBR level).2)
                cov).1,
              (TileManager.pixelCoordinatesToTileCoordinates
                ⟨ts, lrl, downs, dims, cov, lfov, llev⟩ fovTL level,
               TileManager.pixelCoordinatesToTileCoordinates
                ⟨ts, lrl, downs, dims, cov, lfov, llev⟩ fovBR level),
              level⟩, []) := by
          simp only [TileManager.loadTilesForFieldOfView]
          rw [if_neg hlvl]
          rw [if_neg (by push_neg; exact ⟨rfl, rfl⟩)]
        rw [h1]
      · dsimp only
        intro j hj
        obtain ⟨x, y, hjx, hxmem, hx0, hxn, hymem, hy0, hyn, hcv0, hfin⟩ :=
          x₁s j hj
        subst hjx
        simp only [ThreadJob.posX, ThreadJob.posY]
        refine ⟨trivial, ?_, ?_⟩
        · rw [providesCoverage_nonneg cov level x y hx0 hy0]
          exact hcv0
        · rw [providesCoverage_nonneg _ level x y hx0 hy0]
          exact hfin
    · have h0 : TileManager.loadTilesForFieldOfView
          ⟨ts, lrl, downs, dims, cov, lfov, llev⟩ fovTL fovBR level =
          (⟨ts, lrl, downs, dims, cov, lfov, llev⟩, []) := by
        simp only [TileManager.loadTilesForFieldOfView]
        rw [if_neg hlvl, if_neg hfov]
      rw [h0]
      exact ⟨by rw [h0], by simp, by simp⟩

/-- Counterexample to claim C7 as stated: a 512×512 single-level image with
512-pixel tiles has a 1×1 tile grid (`getLevelTiles = (1, 1)`), yet a field
of view reaching pixel 600 enqueues a job for tile (1, 1) — the loop bound
is `x <= nrTiles.x()` (inclusive, `TileManager.cpp:159`), so a tile index
equal to the tile count, entirely outside the image, is not skipped. -/
theorem loadTiles_bound_cex :
    ThreadJob.ioJob 512 1 1 0 ∈
      (TileManager.loadTilesForFieldOfView edgeState (0, 0) (600, 600) 0).2 ∧
    TileManager.getLevelTiles edgeState 0 = (1, 1) := by
  have h1 : TileManager.pixelCoordinatesToTileCoordinates edgeState (0, 0) 0
      = (0, 0) := by
    norm_num [TileManager.pixelCoordinatesToTileCoordinates, edgeState]
  have h2 : TileManager.pixelCoordinatesToTileCoordinates edgeState (600, 600) 0
      = (1, 1) := by
    norm_num [TileManager.pixelCoordinatesToTileCoordinates, edgeState]
  have h3 : TileManager.getLevelTiles edgeState 0 = (1, 1) := by
    norm_num [TileManager.getLevelTiles, edgeState]
  refine ⟨?_, h3⟩
  simp only [TileManager.loadTilesForFieldOfView, h1, h2, h3]
  decide

/-- Claim C7 as amended: every tile enqueued by `loadTilesForFieldOfView`
satisfies `0 ≤ x ≤ levelTileCountX` and `0 ≤ y ≤ levelTileCountY`
(inclusive upper bound, one tile beyond the image edge), and the coverage
of every key outside that inclusive range — at any level — is unchanged. -/
theorem loadTiles_bounds_frame (s : TileManager.State)
    (fovTL fovBR : ℚ × ℚ) (level : Nat) :
    (∀ j ∈ (TileManager.loadTilesForFieldOfView s fovTL fovBR level).2,
      0 ≤ ThreadJob.posX j ∧
      ThreadJob.posX j ≤ (TileManager.getLevelTiles s level).1 ∧
      0 ≤ ThreadJob.posY j ∧
      ThreadJob.posY j ≤ (TileManager.getLevelTiles s level).2) ∧
    (∀ (l₁ : Nat) (x₁ y₁ : Int),
      ¬(l₁ = level ∧ 0 ≤ x₁ ∧ x₁ ≤ (TileManager.getLevelTiles s level).1 ∧
        0 ≤ y₁ ∧ y₁ ≤ (TileManager.getLevelTiles s level).2) →
      covValue
        (TileManager.loadTilesForFieldOfView s fovTL fovBR level).1.coverage
        l₁ x₁ y₁ = covValue s.coverage l₁ x₁ y₁) := by
  obtain ⟨ts, lrl, downs, dims, cov, lfov, llev⟩ := s
  by_cases hlvl : level > lrl
  · have h0 : TileManager.loadTilesForFieldOfView
        ⟨ts, lrl, downs, dims, cov, lfov, llev⟩ fovTL fovBR level =
        (⟨ts, lrl, downs, dims, cov, lfov, llev⟩, []) := by
      simp only [TileManager.loadTilesForFieldOfView]
      rw [if_pos hlvl]
    rw [h0]
    exact ⟨by simp, fun _ _ _ _ => rfl⟩
  · by_cases hfov :
      ((TileManager.pixelCoordinatesToTileCoordinates
          ⟨ts, lrl, downs, dims, cov, lfov, llev⟩ fovTL level,
        TileManager.pixelCoordinatesToTileCoordinates
          ⟨ts, lrl, downs, dims, cov, lfov, llev⟩ fovBR level) ≠ lfov ∨
        level ≠ llev)
    · obtain ⟨x₁s, x₂s, x₃s⟩ := loadTilesX_spec ts level
        (TileManager.getLevelTiles ⟨ts, lrl, downs, dims, cov, lfov, llev⟩ level).1
        (TileManager.getLevelTiles ⟨ts, lrl, downs, dims, cov, lfov, llev⟩ level).2
        (TileManager.intRange
          (TileManager.pixelCoordinatesToTileCoordinates
            ⟨ts, lrl, downs, dims, cov, lfov, llev⟩ fovTL level).1
          (TileManager.pixelCoordinatesToTileCoordinates
            ⟨ts, lrl, downs, dims, cov, lfov, llev⟩ fovBR level).1)
        (intRange_nodup _ _)
        (TileManager.intRange
          (TileManager.pixelCoordinatesToTileCoordinates
            ⟨ts, lrl, downs, dims, cov, lfov, llev⟩ fovTL level).2
          (TileManager.pixelCoordinatesToTileCoordinates
            ⟨ts, lrl, downs, dims, cov, lfov, llev⟩ fovBR level).2)
        (intRange_nodup _ _) cov
      have h0 : TileManager.loadTilesForFieldOfView
          ⟨ts, lrl, downs, dims, cov, lfov, llev⟩ fovTL fovBR level =
          (⟨ts, lrl, downs, dims,
            (TileManager.loadTilesX ts level
              (TileManager.getLevelTiles
                ⟨ts, lrl, downs, dims, cov, lfov, llev⟩ level).1
              (TileManager.getLevelTiles
                ⟨ts, lrl, downs, dims, cov, lfov, llev⟩ level).2
              (TileManager.intRange
                (TileManager.pixelCoordinatesToTileCoordinates
                  ⟨ts, lrl, downs, dims, cov, lfov, llev⟩ fovTL level).1
                (TileManager.pixelCoordinatesToTileCoordinates
                  ⟨ts, lrl, downs, dims, cov, lfov, llev⟩ fovBR level).1)
              (TileManager.intRange
                (TileManager.pixelCoordinatesToTileCoordinates
                  ⟨ts, lrl, downs, dims, cov, lfov, llev⟩ fovTL level).2
                (TileManager.pixelCoordinatesToTileCoordinates
                  ⟨ts, lrl, downs, dims, cov, lfov, llev⟩ fovBR level).2)
              cov).1,
            (TileManager.pixelCoordinatesToTileCoordinates
              ⟨ts, lrl, downs, dims, cov, lfov, llev⟩ fovTL level,
             TileManager.pixelCoordinatesToTileCoordinates
              ⟨ts, lrl, downs, dims, cov, lfov, llev⟩ fovBR level),
            level⟩,
           (TileManager.loadTilesX ts level
              (TileManager.getLevelTiles
                ⟨ts, lrl, downs, dims, cov, lfov, llev⟩ level).1
              (TileManager.getLevelTiles
                ⟨ts, lrl, downs, dims, cov, lfov, llev⟩ level).2
              (TileManager.intRange
                (TileManager.pixelCoordinatesToTileCoordinates
                  ⟨ts, lrl, downs, dims, cov, lfov, llev⟩ fovTL level).1
                (TileManager.pixelCoordinatesToTileCoordinates
                  ⟨ts, lrl, downs, dims, cov, lfov, llev⟩ fovBR level).1)
              (TileManager.intRange
                (TileManager.pixelCoordinatesToTileCoordinates
                  ⟨ts, lrl, downs, dims, cov, lfov, llev⟩ fovTL level).2
                (TileManager.pixelCoordinatesToTileCoordinates
                  ⟨ts, lrl, downs, dims, cov, lfov, llev⟩ fovBR level).2)
              cov).2) := by
        simp only [TileManager.loadTilesForFieldOfView]
        rw [if_neg hlvl, if_pos hfov]
      rw [h0]
      constructor
      · dsimp only
        intro j hj
        obtain ⟨x, y, hjx, hxmem, hx0, hxn, hymem, hy0, hyn, -, -⟩ := x₁s j hj
        subst hjx
        simp only [ThreadJob.posX, ThreadJob.posY]
        exact ⟨hx0, hxn, hy0, hyn⟩
      · dsimp only
        intro l₁ x₁ y₁ hno
        exact x₃s l₁ x₁ y₁
          (fun hc => hno ⟨hc.1, hc.2.2.1, hc.2.2.2.1, hc.2.2.2.2.2⟩)
    · have h0 : TileManager.loadTilesForFieldOfView
          ⟨ts, lrl, downs, dims, cov, lfov, llev⟩ fovTL fovBR level =
          (⟨ts, lrl, downs, dims, cov, lfov, llev⟩, []) := by
        simp only [TileManager.loadTilesForFieldOfView]
        rw [if_neg hlvl, if_neg hfov]
      rw [h0]
      exact ⟨by simp, fun _ _ _ _ => rfl⟩

/-- The two coverage writes `onForegroundTileRendered` can perform: 2 on a
cache hit, 0 on a miss. -/
theorem onForegroundTileRendered_coverage (m : ManagerState) (tile : Option Nat)
    (x y : Int) (lvl : Nat) :
    (TileManager.onForegroundTileRendered m tile x y lvl).tm.coverage =
      TileManager.setCoverage m.tm.coverage lvl x y 2 ∨
    (TileManager.onForegroundTileRendered m tile x y lvl).tm.coverage =
      TileManager.setCoverage m.tm.coverage lvl x y 0 := by
  unfold TileManager.onForegroundTileRendered
  dsimp only
  rcases hget : (WSITileGraphicsItemCache.get m.cache (tileKey x y lvl)).1
    with _ | v
  · exact Or.inr rfl
  · exact Or.inl rfl

/-- With no workers `clearJobs` emits nothing: the manager state is
untouched. -/
theorem clearJobsList_no_workers :
    ∀ (jobs : List ThreadJob) (m : ManagerState),
      IOThread.clearJobsList 0 jobs m = some m := by
  intro jobs
  induction jobs with
  | nil => intro m; rfl
  | cons job rest ih =>
    intro m
    simp only [IOThread.clearJobsList]
    rw [if_neg (by omega : ¬(0 : Nat) > 0)]
    exact ih m

/-- The `clearJobs` loop never fails: each discarded job's notification is
total (only the null-tile branches run). -/
theorem clearJobsList_total (workers : Nat) :
    ∀ (jobs : List ThreadJob) (m : ManagerState),
      ∃ m₁, IOThread.clearJobsList workers jobs m = some m₁ := by
  intro jobs
  induction jobs with
  | nil => intro m; exact ⟨m, rfl⟩
  | cons job rest ih =>
    intro m
    by_cases hw : workers > 0
    · cases job with
      | ioJob ts x y lvl =>
        simp only [IOThread.clearJobsList]
        rw [if_pos hw]
        obtain ⟨m₁, hm₁⟩ := ih { m with tm := { m.tm with
          coverage := TileManager.setCoverage m.tm.coverage lvl x y 0 } }
        exact ⟨m₁, hm₁⟩
      | renderJob ts x y lvl =>
        simp only [IOThread.clearJobsList]
        rw [if_pos hw]
        exact ih _
    · simp only [IOThread.clearJobsList]
      rw [if_neg hw]
      exact ih m

/-- Every coverage value after the `clearJobs` loop is either unchanged, 0
or 2: the loop only ever writes 0 and 2. -/
theorem clearJobsList_writes (workers : Nat) :
    ∀ (jobs : List ThreadJob) (m m₁ : ManagerState),
      IOThread.clearJobsList workers jobs m = some m₁ →
      ∀ (l : Nat) (x y : Int),
        covValue m₁.tm.coverage l x y = covValue m.tm.coverage l x y ∨
        covValue m₁.tm.coverage l x y = 0 ∨
        covValue m₁.tm.coverage l x y = 2 := by
  intro jobs
  induction jobs with
  | nil =>
    intro m m₁ h l x y
    exact Or.inl (by rw [Option.some.inj h])
  | cons job rest ih =>
    intro m m₁ h l x y
    by_cases hw : workers > 0
    · cases job with
      | ioJob ts jx jy jlvl =>
        simp only [IOThread.clearJobsList] at h
        rw [if_pos hw] at h
        rcases ih _ _ h l x y with heq | h02
        · rw [heq]
          by_cases hk : l = jlvl ∧ x = jx ∧ y = jy

          · right
            left
            obtain ⟨rfl, rfl, rfl⟩ := hk
            exact covValue_set_self _ _ _ _ _
          · exact Or.inl (covValue_set_ne _ _ _ _ _ _ _ _ hk)
        · exact Or.inr h02
      | renderJob ts jx jy jlvl =>
        simp only [IOThread.clearJobsList] at h
        rw [if_pos hw] at h
        rcases ih _ _ h l x y with heq | h02
        · rw [heq]
          rcases onForegroundTileRendered_coverage m none jx jy jlvl
            with hcov | hcov
          · rw [hcov]
            by_cases hk : l = jlvl ∧ x = jx ∧ y = jy
            · right
              right
              obtain ⟨rfl, rfl, rfl⟩ := hk
              exact covValue_set_self _ _ _ _ _
            · exact Or.inl (covValue_set_ne _ _ _ _ _ _ _ _ hk)
          · rw [hcov]
            by_cases hk : l = jlvl ∧ x = jx ∧ y = jy
            · right
              left
              obtain ⟨rfl, rfl, rfl⟩ := hk
              exact covValue_set_self _ _ _ _ _
            · exact Or.inl (covValue_set_ne _ _ _ _ _ _ _ _ hk)
        · exact Or.inr h02
    · simp only [IOThread.clearJobsList] at h
      rw [if_neg hw] at h
      exact ih _ _ h l x y

/-- With at least one worker, after the `clearJobs` loop the coverage of
every discarded job's key is 0 or 2 — never left Pending. -/
theorem clearJobsList_discharged (workers : Nat) (hw : 0 < workers) :
    ∀ (jobs : List ThreadJob) (m m₁ : ManagerState),
      IOThread.clearJobsList workers jobs m = some m₁ →
      ∀ job ∈ jobs,
        covValue m₁.tm.coverage (ThreadJob.level job) (ThreadJob.posX job)
          (ThreadJob.posY job) = 0 ∨
        covValue m₁.tm.coverage (ThreadJob.level job) (ThreadJob.posX job)
          (ThreadJob.posY job) = 2 := by
  intro jobs
  induction jobs with
  | nil =>
    intro m m₁ h job hj
    exact absurd hj (List.not_mem_nil job)
  | cons job₀ rest ih =>
    intro m m₁ h job hj
    cases job₀ with
    | ioJob ts jx jy jlvl =>
      simp only [IOThread.clearJobsList] at h
      rw [if_pos hw] at h
      rcases List.mem_cons.mp hj with hj | hj
      · subst hj
        simp only [ThreadJob.level, ThreadJob.posX, ThreadJob.posY]
        have hstep : covValue (TileManager.setCoverage m.tm.coverage jlvl jx jy 0)
            jlvl jx jy = 0 := covValue_set_self _ _ _ _ _
        rcases clearJobsList_writes workers rest _ m₁ h jlvl jx jy with heq | h02
        · rw [heq]
          exact Or.inl hstep
        · exact h02
      · exact ih _ _ h job hj
    | renderJob ts jx jy jlvl =>
      simp only [IOThread.clearJobsList] at h
      rw [if_pos hw] at h
      rcases List.mem_cons.mp hj with hj | hj
      · subst hj
        simp only [ThreadJob.level, ThreadJob.posX, ThreadJob.posY]
        have hstep : covValue (TileManager.onForegroundTileRendered m none
            jx jy jlvl).tm.coverage jlvl jx jy = 2 ∨
            covValue (TileManager.onForegroundTileRendered m none
              jx jy jlvl).tm.coverage jlvl jx jy = 0 := by
          rcases onForegroundTileRendered_coverage m none jx jy jlvl
            with hcov | hcov
          · rw [hcov]
            exact Or.inl (covValue_set_self _ _ _ _ _)
          · rw [hcov]
            exact Or.inr (covValue_set_self _ _ _ _ _)
        rcases clearJobsList_writes workers rest _ m₁ h jlvl jx jy with heq | h02
        · rw [heq]
          rcases hstep with h2 | h0
          · exact Or.inr h2
          · exact Or.inl h0
        · exact h02
      · exact ih _ _ h job hj

/-- Counterexample to claim C5 as stated: a queued `RenderJob` for tile
(0, 0, 0) whose key is Pending (1) and present in the cache — after
`clearJobs` the key's coverage is 2 (Covered), not rolled back to 0:
`onForegroundTileRendered(nullptr, …)` on a cache hit writes Covered
(`TileManager.cpp:220`). -/
theorem clearJobs_render_pending_cex :
    covValue pendingRenderManager.tm.coverage 0 0 0 = 1 ∧
    (IOThread.clearJobs pendingRenderQueue pendingRenderManager).map
      (fun r => covValue r.2.tm.coverage 0 0 0) = some 2 := by
  decide

/-- Claim C5 as amended: `clearJobs` always succeeds and empties the queue;
when at least one worker exists, every discarded job's tile key ends with
coverage 0 (every `IOJob`, and a `RenderJob` missing the cache) or 2 (a
`RenderJob` whose tile is in the cache) — in particular no discarded key
remains Pending (1); with no workers, no notification is emitted and the
manager state is unchanged. -/
theorem clearJobs_discharges_spec (t : IOThreadState) (m : ManagerState) :
    (∀ r, IOThread.clearJobs t m = some r →
      r.1.jobList = [] ∧ r.1.workers = t.workers ∧
      (0 < t.workers → ∀ job ∈ t.jobList,
        covValue r.2.tm.coverage (ThreadJob.level job) (ThreadJob.posX job)
          (ThreadJob.posY job) = 0 ∨
        covValue r.2.tm.coverage (ThreadJob.level job) (ThreadJob.posX job)
          (ThreadJob.posY job) = 2)) ∧
    (∃ r, IOThread.clearJobs t m = some r) ∧
    (t.workers = 0 →
      IOThread.clearJobs t m = some ({ t with jobList := [] }, m)) := by
  refine ⟨?_, ?_, ?_⟩
  · intro r hr
    unfold IOThread.clearJobs at hr
    rcases hlist : IOThread.clearJobsList t.workers t.jobList m with _ | m₁
    · rw [hlist] at hr
      exact absurd hr (by simp)
    · rw [hlist] at hr
      obtain rfl := Option.some.inj hr
      refine ⟨rfl, rfl, ?_⟩
      intro hw job hj
      exact clearJobsList_discharged t.workers hw t.jobList m m₁ hlist job hj
  · obtain ⟨m₁, hm₁⟩ := clearJobsList_total t.workers t.jobList m
    exact ⟨({ t with jobList := [] }, m₁), by
      unfold IOThread.clearJobs
      rw [hm₁]
      rfl⟩
  · intro hw
    unfold IOThread.clearJobs
    rw [hw, clearJobsList_no_workers t.jobList m]
    rfl

/-- Witness for C10 at `tinyImageState` (one level) queried at level 3. -/
theorem out_of_range_level_defaults_w :
    TileManager.pixelCoordinatesToTileCoordinates tinyImageState (70, 70) 3 = (0, 0) ∧
    TileManager.tileCoordinatesToPixelCoordinates tinyImageState (1, 1) 3 = (0, 0) ∧
    TileManager.getLevelTiles tinyImageState 3 = (0, 0) ∧
    ∃ (s₀ : TileManager.State) (p₀ : ℚ × ℚ) (level₀ : Nat),
      level₀ < s₀.levelDownsamples.length ∧
      TileManager.pixelCoordinatesToTileCoordinates s₀ p₀ level₀ = (0, 0) :=
  out_of_range_level_defaults tinyImageState 3 (70, 70) (1, 1)
    (by decide) (by decide)

end DSV
